import Mathlib

/-!
Verification of the NBA advanced-stats updater (`adv_update.py`).

This file gives a shallow embedding of the pure computational content of
`adv_update.py` and proves properties of it.  Conventions used throughout:

* Python strings are modelled as `List Char` (`PyStr`); `S r"..."` builds one
  from a literal.
* Spreadsheet / JSON cell values are modelled by the inductive `JVal`
  (string, int, float, null).  Python floats are modelled by `ℚ` (the values
  handled by the program are finite decimals; NaN never appears as a JSON
  number, and a NaN produced by `float(str)` is treated as a parse failure
  because `float(x) == float(x)` is false for it).
* Python `datetime` values are modelled by the record `PyDateTime` at second
  granularity; comparisons and `timedelta` arithmetic go through the injective
  key `dtKey` (seconds in the proleptic Gregorian calendar), which matches
  Python's lexicographic `datetime` ordering on valid values.
* Exceptions are modelled with `Except PyStr`; the exception's `str()` text is
  the carried `PyStr`.  Ambient inputs (the wall clock `now_iso()` /
  `datetime.now()`, HTTP attempt outcomes, random jitter) are passed in as
  explicit parameters.
* Configuration globals (`MAX_GAMES_PER_RUN`, `MAX_TRIES`, `LOOKBACK_DAYS`,
  `SLEEP_BASE`) are parameters of the functions that use them; their defaults
  are bound to constants of the same name.
-/

/-- Decidable equality for `Except` results (used to state facts about the
modelled fallible computations). -/
instance {e a : Type} [DecidableEq e] [DecidableEq a] : DecidableEq (Except e a) := fun x y =>
  match x, y with
  | .ok u, .ok v =>
    if h : u = v then .isTrue (congrArg Except.ok h)
    else .isFalse (fun hh => h (Except.ok.inj hh))
  | .error u, .error v =>
    if h : u = v then .isTrue (congrArg Except.error h)
    else .isFalse (fun hh => h (Except.error.inj hh))
  | .ok _, .error _ => .isFalse (fun hh => Except.noConfusion hh)
  | .error _, .ok _ => .isFalse (fun hh => Except.noConfusion hh)

/-- Python strings are modelled as lists of characters. -/
abbrev PyStr := List Char

/-- Build a `PyStr` from a Lean string literal. -/
def S (s : String) : PyStr := s.toList

/-- Characters treated as whitespace by Python's `str.strip` and by `\s` in
`re` on `str` patterns (ASCII whitespace, the C1 separator controls, NEL,
NBSP and the Unicode space/line/paragraph separators). -/
def isWsCh (c : Char) : Bool :=
  let n := c.toNat
  (9 <= n && n <= 13) || n = 32 || (28 <= n && n <= 31) || n = 133 || n = 160 ||
  n = 5760 || (8192 <= n && n <= 8202) || n = 8232 || n = 8233 || n = 8239 ||
  n = 8287 || n = 12288

/-- The non-breaking-space character replaced by `normalize_team_name`. -/
def nbspCh : Char := '\xa0'

/-- ASCII decimal digit. -/
def isDigitCh (c : Char) : Bool := '0' ≤ c && c ≤ '9'

/-- Lower-casing of one character (`str.lower`, restricted to ASCII, which is
all the program's team names use). -/
def pyLowerChar (c : Char) : Char :=
  if 65 ≤ c.toNat ∧ c.toNat ≤ 90 then Char.ofNat (c.toNat + 32) else c

/-- Upper-casing of one character (`str.upper`, restricted to ASCII). -/
def pyUpperChar (c : Char) : Char :=
  if 97 ≤ c.toNat ∧ c.toNat ≤ 122 then Char.ofNat (c.toNat - 32) else c

/-- `str.lower`. -/
def pyLower (s : PyStr) : PyStr := s.map pyLowerChar

/-- `str.upper`. -/
def pyUpper (s : PyStr) : PyStr := s.map pyUpperChar

/-- `str.strip()`: drop leading and trailing whitespace. -/
def pyStrip (s : PyStr) : PyStr :=
  ((s.dropWhile isWsCh).reverse.dropWhile isWsCh).reverse

/-- One step of `re.sub(r"\\s+", " ", s)`: `prevWs` records whether the
previous character was whitespace (i.e. we are inside a run that has already
emitted its single space). -/
def wsCollapseGo : Bool → PyStr → PyStr
  | _, [] => []
  | prevWs, c :: rest =>
    if isWsCh c then
      if prevWs then wsCollapseGo true rest else ' ' :: wsCollapseGo true rest
    else c :: wsCollapseGo false rest

/-- `re.sub(r"\\s+", " ", s)`: replace every maximal whitespace run by a single
space. -/
def wsCollapse (s : PyStr) : PyStr := wsCollapseGo false s

/-- Decidable prefix test on `PyStr` (used by `replaceAll`). -/
def isPfx : PyStr → PyStr → Bool
  | [], _ => true
  | _ :: _, [] => false
  | a :: as, b :: bs => a = b && isPfx as bs

/-- Fuel-driven worker for `replaceAll`; the fuel is an upper bound on the
length of the remaining string, so it is never exhausted in `replaceAll`. -/
def replaceAllGo (a b : PyStr) : Nat → PyStr → PyStr
  | _, [] => []
  | 0, s => s
  | fuel + 1, c :: rest =>
    if a ≠ [] ∧ isPfx a (c :: rest) then
      b ++ replaceAllGo a b fuel (rest.drop (a.length - 1))
    else
      c :: replaceAllGo a b fuel rest

/-- `str.replace(a, b)`: replace every (leftmost, non-overlapping) occurrence
of `a` by `b`.  The program only calls this with non-empty `a`; for `a = []`
this model returns `s` unchanged. -/
def replaceAll (a b s : PyStr) : PyStr := replaceAllGo a b s.length s

/-- `normalize_team_name` from `adv_update.py`: strip, lower-case, turn NBSP
into a space, collapse whitespace runs, then expand the two ESPN shorthand
aliases. -/
def normalize_team_name (s : PyStr) : PyStr :=
  let t0 := pyLower (pyStrip s)
  let t1 := replaceAll [nbspCh] [' '] t0
  let t2 := wsCollapse t1
  let t3 := replaceAll (S r"la clippers") (S r"los angeles clippers") t2
  replaceAll (S r"la lakers") (S r"los angeles lakers") t3

example : normalize_team_name (S r"  LA Clippers ") = S r"los angeles clippers" := by decide
example : normalize_team_name (S r"la  lakers") = S r"los angeles lakers" := by decide

/-- Digits of a token interpreted in base 10. -/
def digitsToNat (d : PyStr) : Nat := d.foldl (fun a c => a * 10 + (c.toNat - 48)) 0

/-- Python `float(str)` on the decimal grammar `[ws] [sign] (digits [. digits]
| . digits) [(e|E) [sign] digits] [ws]`, as a rational.  `inf`, `nan` and
digit-group underscores are not modelled (`nan` would fail the program's
`float(x) == float(x)` check anyway, and none of these occur in the data this
program reads). -/
def pyFloatQ? (s0 : PyStr) : Option ℚ :=
  let s := pyStrip s0
  let (sgn, s1) : ℤ × PyStr :=
    match s with
    | '+' :: t => (1, t)
    | '-' :: t => (-1, t)
    | t => (1, t)
  let ip := s1.takeWhile isDigitCh
  let r1 := s1.dropWhile isDigitCh
  let (fp, r2) : PyStr × PyStr :=
    match r1 with
    | '.' :: t => (t.takeWhile isDigitCh, t.dropWhile isDigitCh)
    | t => ([], t)
  if ip = [] ∧ fp = [] then none
  else
    let m : Nat := digitsToNat ip * 10 ^ fp.length + digitsToNat fp
    match r2 with
    | [] => some (mkRat (sgn * m) (10 ^ fp.length))
    | e :: t =>
      if e = 'e' ∨ e = 'E' then
        let (eneg, t1) : Bool × PyStr :=
          match t with
          | '+' :: u => (false, u)
          | '-' :: u => (true, u)
          | u => (false, u)
        let ed := t1.takeWhile isDigitCh
        if ed ≠ [] ∧ t1.dropWhile isDigitCh = [] then
          let ev := digitsToNat ed
          if eneg then some (mkRat (sgn * m) (10 ^ fp.length * 10 ^ ev))
          else some (mkRat (sgn * m * 10 ^ ev) (10 ^ fp.length))
        else none
      else none

/-- Spreadsheet / JSON cell values: string, JSON integer, JSON float, null. -/
inductive JVal where
  | str (s : PyStr)
  | int (z : ℤ)
  | num (q : ℚ)
  | null
deriving DecidableEq

/-- `is_num` from `adv_update.py`: `x is not None and x != "" and
float(x) == float(x)`. -/
def is_num : JVal → Bool
  | .null => false
  | .str s => (pyFloatQ? s).isSome
  | .int _ => true
  | .num _ => true

/-- `float(x)` for a value already known numeric (`is_num`); `0` otherwise. -/
def jvalQ : JVal → ℚ
  | .null => 0
  | .str s => (pyFloatQ? s).getD 0
  | .int z => (z : ℚ)
  | .num q => q

/-- Decimal digit characters of `n` (most significant first). -/
def natStr (n : Nat) : PyStr := Nat.toDigits 10 n

/-- Python `str(int)`. -/
def intStr (z : ℤ) : PyStr := if z < 0 then '-' :: natStr z.natAbs else natStr z.natAbs

/-- Fractional digits of `q ∈ [0,1)`, most significant first, up to `fuel`. -/
def qFracDigits : ℚ → Nat → PyStr
  | _, 0 => []
  | q, fuel + 1 =>
    if q = 0 then []
    else
      let q10 := q * 10
      Char.ofNat (48 + q10.floor.toNat) :: qFracDigits (q10 - q10.floor) fuel

/-- Python `str(float)`, approximated: exact for integral floats (`"1.0"`) and
for floats with a short decimal expansion, which covers every float this
program stringifies. -/
def qStr (q : ℚ) : PyStr :=
  if q.den = 1 then intStr q.num ++ S r".0"
  else
    let a : ℚ := |q|
    (if q < 0 then ['-'] else []) ++ intStr a.floor ++
      '.' :: qFracDigits (a - a.floor) 17

/-- Python `str(x)` on a cell value. -/
def pyStrOfVal : JVal → PyStr
  | .str s => s
  | .int z => intStr z
  | .num q => qStr q
  | .null => S r"None"

/-- Python truthiness of a cell value (`bool(x)` is false for `None`, `""`,
`0`, `0.0`). -/
def valFalsy : JVal → Bool
  | .null => true
  | .str s => s.isEmpty
  | .int z => z = 0
  | .num q => q = 0

/-- Naive `datetime` at second granularity (the program never uses
microseconds, and time zones are stripped on parse). -/
structure PyDateTime where
  year : Nat
  month : Nat
  day : Nat
  hour : Nat := 0
  minute : Nat := 0
  second : Nat := 0
deriving DecidableEq

/-- Gregorian leap year. -/
def isLeap (y : Nat) : Bool := (y % 4 = 0 && y % 100 ≠ 0) || y % 400 = 0

/-- Length of month `m` in year `y`. -/
def daysInMonth (y m : Nat) : Nat :=
  if m = 2 then (if isLeap y then 29 else 28)
  else if m = 4 ∨ m = 6 ∨ m = 9 ∨ m = 11 then 30
  else 31

/-- Days in year `y` strictly before month `m`. -/
def daysBeforeMonth (y m : Nat) : Nat :=
  let base :=
    if m ≤ 1 then 0 else if m = 2 then 31 else if m = 3 then 59
    else if m = 4 then 90 else if m = 5 then 120 else if m = 6 then 151
    else if m = 7 then 181 else if m = 8 then 212 else if m = 9 then 243
    else if m = 10 then 273 else if m = 11 then 304 else 334
  if 3 ≤ m ∧ isLeap y then base + 1 else base

/-- Injective key of a `datetime`: seconds since the proleptic-Gregorian
epoch.  On valid datetimes, `dtKey`-order coincides with Python's `datetime`
comparison, and subtracting `timedelta(days = n)` is subtracting `n * 86400`. -/
def dtKey (t : PyDateTime) : ℤ :=
  (((t.year : ℤ) - 1) * 365 + ((t.year : ℤ) - 1) / 4 - ((t.year : ℤ) - 1) / 100 +
      ((t.year : ℤ) - 1) / 400 + daysBeforeMonth t.year t.month + t.day) * 86400 +
    (t.hour : ℤ) * 3600 + (t.minute : ℤ) * 60 + t.second

/-- The `datetime(...)` constructor: validates ranges, like Python's, which
raises `ValueError` out of `strptime` for e.g. Feb 30 or year 0. -/
def mkDT (y m d hh mi ss : Nat) : Option PyDateTime :=
  if 1 ≤ y ∧ y ≤ 9999 ∧ 1 ≤ m ∧ m ≤ 12 ∧ 1 ≤ d ∧ d ≤ daysInMonth y m ∧
      hh ≤ 23 ∧ mi ≤ 59 ∧ ss ≤ 59 then
    some ⟨y, m, d, hh, mi, ss⟩
  else none

/-- Split on one separator character, keeping empty fields. -/
def chSplitGo (sep : Char) (cur : PyStr) : PyStr → List PyStr
  | [] => [cur.reverse]
  | c :: rest =>
    if c = sep then cur.reverse :: chSplitGo sep [] rest
    else chSplitGo sep (c :: cur) rest

/-- Split on a separator character. -/
def chSplit (sep : Char) (s : PyStr) : List PyStr := chSplitGo sep [] s

/-- Split on maximal whitespace runs (a run acts as one separator, matching a
literal space in an `strptime` format, which `_strptime` compiles to `\s+`);
leading/trailing runs produce empty fields, which then fail the numeric field
patterns exactly as the regex would. -/
def wsSplitGo : Bool → PyStr → PyStr → List PyStr
  | _, cur, [] => [cur.reverse]
  | inRun, cur, c :: rest =>
    if isWsCh c then
      if inRun then wsSplitGo true [] rest
      else cur.reverse :: wsSplitGo true [] rest
    else wsSplitGo false (c :: cur) rest

/-- Whitespace-separated tokens of `s`. -/
def wsTokens (s : PyStr) : List PyStr := wsSplitGo false [] s

/-- All-digit token as a number. -/
def tokNat? (t : PyStr) : Option Nat :=
  if t ≠ [] ∧ t.all isDigitCh then some (digitsToNat t) else none

/-- `strptime` field `%m` / `%d`: one or two digits, value in `[1, maxv]`. -/
def tokMD (t : PyStr) (maxv : Nat) : Option Nat :=
  match tokNat? t with
  | some v => if (t.length = 1 ∨ t.length = 2) ∧ 1 ≤ v ∧ v ≤ maxv then some v else none
  | none => none

/-- `strptime` field `%H` / `%M` / `%S`: one or two digits, value `≤ maxv`. -/
def tokHMS (t : PyStr) (maxv : Nat) : Option Nat :=
  match tokNat? t with
  | some v => if (t.length = 1 ∨ t.length = 2) ∧ v ≤ maxv then some v else none
  | none => none

/-- `strptime` field `%Y`: exactly four digits. -/
def tokY4 (t : PyStr) : Option Nat :=
  match tokNat? t with
  | some v => if t.length = 4 then some v else none
  | none => none

/-- `strptime(s, "%m/%d/%Y")`. -/
def parseMDY (s : PyStr) : Option PyDateTime :=
  match chSplit '/' s with
  | [ms, ds, ys] => do
    let m ← tokMD ms 12
    let d ← tokMD ds 31
    let y ← tokY4 ys
    mkDT y m d 0 0 0
  | _ => none

/-- `"%H:%M"` part. -/
def parseHM (t : PyStr) : Option (Nat × Nat) :=
  match chSplit ':' t with
  | [hs, ms] => do
    let h ← tokHMS hs 23
    let mi ← tokHMS ms 59
    pure (h, mi)
  | _ => none

/-- `"%H:%M:%S"` part. -/
def parseHMS (t : PyStr) : Option (Nat × Nat × Nat) :=
  match chSplit ':' t with
  | [hs, ms, ss] => do
    let h ← tokHMS hs 23
    let mi ← tokHMS ms 59
    let sec ← tokHMS ss 59
    pure (h, mi, sec)
  | _ => none

/-- `strptime(s, "%m/%d/%Y %H:%M")`. -/
def parseMDY_HM (s : PyStr) : Option PyDateTime :=
  match wsTokens s with
  | [dp, tp] => do
    let base ← parseMDY dp
    let (h, mi) ← parseHM tp
    mkDT base.year base.month base.day h mi 0
  | _ => none

/-- `strptime(s, "%m/%d/%Y %H:%M:%S")`. -/
def parseMDY_HMS (s : PyStr) : Option PyDateTime :=
  match wsTokens s with
  | [dp, tp] => do
    let base ← parseMDY dp
    let (h, mi, sec) ← parseHMS tp
    mkDT base.year base.month base.day h mi sec
  | _ => none

/-- `strptime(s, "%Y-%m-%d")`. -/
def parseYMD (s : PyStr) : Option PyDateTime :=
  match chSplit '-' s with
  | [ys, ms, ds] => do
    let y ← tokY4 ys
    let m ← tokMD ms 12
    let d ← tokMD ds 31
    mkDT y m d 0 0 0
  | _ => none

/-- `strptime(s, "%Y-%m-%d %H:%M:%S")`. -/
def parseYMD_HMS (s : PyStr) : Option PyDateTime :=
  match wsTokens s with
  | [dp, tp] => do
    let base ← parseYMD dp
    let (h, mi, sec) ← parseHMS tp
    mkDT base.year base.month base.day h mi sec
  | _ => none

/-- Exactly two digits. -/
def twoDig? (a b : Char) : Option Nat :=
  if isDigitCh a ∧ isDigitCh b then some ((a.toNat - 48) * 10 + (b.toNat - 48)) else none

/-- UTC-offset tail accepted after an ISO time (`±HH:MM[:SS]`, `±HHMM`,
`±HH`); the parsed offset is discarded because the program strips `tzinfo`. -/
def parseIsoOff : PyStr → Bool
  | [] => true
  | sg :: h1 :: h2 :: rest =>
    (sg = '+' ∨ sg = '-') &&
      (match twoDig? h1 h2 with
       | none => false
       | some _ =>
         match rest with
         | [] => true
         | ':' :: m1 :: m2 :: rest2 =>
           (match twoDig? m1 m2 with
            | some mv =>
              decide (mv ≤ 59) &&
                (match rest2 with
                 | [] => true
                 | ':' :: s1 :: s2 :: [] =>
                   (match twoDig? s1 s2 with
                    | some sv => decide (sv ≤ 59)
                    | none => false)
                 | _ => false)
            | none => false)
         | m1 :: m2 :: [] =>
           (match twoDig? m1 m2 with
            | some mv => decide (mv ≤ 59)
            | none => false)
         | _ => false)
  | _ => false

/-- Fractional-second tail `.digits` / `,digits` (value discarded), possibly
followed by a UTC offset. -/
def parseIsoFrac : PyStr → Bool
  | [] => true
  | c :: t =>
    if c = '.' ∨ c = ',' then
      let ds := t.takeWhile isDigitCh
      ds ≠ [] && parseIsoOff (t.dropWhile isDigitCh)
    else parseIsoOff (c :: t)

/-- ISO time-of-day `HH[:MM[:SS[.ffffff]]][offset]`. -/
def parseIsoTime : PyStr → Option (Nat × Nat × Nat)
  | h1 :: h2 :: rest => do
    let hh ← twoDig? h1 h2
    if hh ≤ 23 then
      match rest with
      | ':' :: m1 :: m2 :: rest2 => do
        let mm ← twoDig? m1 m2
        if mm ≤ 59 then
          match rest2 with
          | ':' :: s1 :: s2 :: rest3 => do
            let ss ← twoDig? s1 s2
            if ss ≤ 59 ∧ parseIsoFrac rest3 then pure (hh, mm, ss) else none
          | r => if parseIsoOff r then pure (hh, mm, 0) else none
        else none
      | r => if parseIsoOff r then pure (hh, 0, 0) else none
    else none
  | _ => none

/-- `datetime.fromisoformat` as used by the program's fallback:
`YYYY-MM-DD[<sep>HH[:MM[:SS[.ffffff]]][offset]]` with any single separator
character, the time zone then being stripped.  (Exotic ISO forms such as
compact `YYYYMMDD` dates are not modelled; the fallback only ever sees
spreadsheet date strings.) -/
def parseIso (s : PyStr) : Option PyDateTime :=
  match s with
  | y1 :: y2 :: y3 :: y4 :: '-' :: m1 :: m2 :: '-' :: d1 :: d2 :: rest =>
    if isDigitCh y1 ∧ isDigitCh y2 ∧ isDigitCh y3 ∧ isDigitCh y4 then do
      let y := digitsToNat [y1, y2, y3, y4]
      let m ← twoDig? m1 m2
      let d ← twoDig? d1 d2
      match rest with
      | [] => mkDT y m d 0 0 0
      | _ :: t => do
        let (hh, mm, ss) ← parseIsoTime t
        mkDT y m d hh mm ss
    else none
  | _ => none

/-- `parse_sheet_date` from `adv_update.py`: try the five `strptime` formats
in order, then the `fromisoformat` fallback with `"Z"` replaced by
`"+00:00"`; `None` on failure. -/
def parse_sheet_date (v : JVal) : Option PyDateTime :=
  if v = .null ∨ v = .str [] then none
  else
    let s := pyStrip (pyStrOfVal v)
    (parseMDY_HM s) <|> (parseMDY_HMS s) <|> (parseMDY s) <|> (parseYMD s) <|>
      (parseYMD_HMS s) <|> parseIso (replaceAll ['Z'] (S r"+00:00") s)

/-- Zero-padded two-digit field. -/
def pad2 (n : Nat) : PyStr := if n < 10 then '0' :: natStr n else natStr n

/-- Zero-padded four-digit field. -/
def pad4 (n : Nat) : PyStr :=
  if n < 10 then '0' :: '0' :: '0' :: natStr n
  else if n < 100 then '0' :: '0' :: natStr n
  else if n < 1000 then '0' :: natStr n
  else natStr n

/-- `format_mdy`: `strftime("%m/%d/%Y")`. -/
def format_mdy (t : PyDateTime) : PyStr :=
  pad2 t.month ++ '/' :: pad2 t.day ++ '/' :: pad4 t.year

/-- `strftime("%m/%d/%Y %H:%M")`, used for the Game Date column. -/
def formatMDY_HM (t : PyDateTime) : PyStr :=
  pad2 t.month ++ '/' :: pad2 t.day ++ '/' :: pad4 t.year ++
    ' ' :: pad2 t.hour ++ ':' :: pad2 t.minute

/-- `build_key` from `adv_update.py`: `"YYYYMMDD|<norm home>|<norm away>"`,
or `""` when there is no datetime. -/
def build_key (game_dt : Option PyDateTime) (home away : PyStr) : PyStr :=
  match game_dt with
  | none => []
  | some t =>
    pad4 t.year ++ pad2 t.month ++ pad2 t.day ++
      '|' :: normalize_team_name home ++ '|' :: normalize_team_name away

/-- Loop of `col_to_a1`: repeatedly `divmod(n - 1, 26)`, prepending
`chr(65 + r)`. -/
def col_to_a1_go : Nat → Nat → PyStr → PyStr
  | _, 0, acc => acc
  | 0, _ + 1, acc => acc
  | fuel + 1, n + 1, acc => col_to_a1_go fuel (n / 26) (Char.ofNat (65 + n % 26) :: acc)

/-- `col_to_a1` from `adv_update.py`: 0-based column index to A1 letters. -/
def col_to_a1 (i : Nat) : PyStr := col_to_a1_go (i + 1) (i + 1) []

/-- Bijective base-26 value of a letter string (`"A"` = 1, `"AA"` = 27). -/
def a1Value (s : PyStr) : Nat := s.foldl (fun a c => a * 26 + (c.toNat - 64)) 0

/-- Modelled from the spec: the inverse conversion `indexFromLetter` (the
source has no inverse of `col_to_a1`; the spec's round-trip property names
one), i.e. the bijective base-26 value minus one. -/
def a1_to_col (s : PyStr) : Nat := a1Value s - 1

example : col_to_a1 0 = S r"A" ∧ col_to_a1 25 = S r"Z" ∧ col_to_a1 26 = S r"AA" := by decide
example : parse_sheet_date (.str (S r"12/31/2030")) =
    some ⟨2030, 12, 31, 0, 0, 0⟩ := by decide
example : parse_sheet_date (.str (S r"2024-02-30")) = none := by decide
example : parse_sheet_date (.str (S r"02/29/2024 13:05")) =
    some ⟨2024, 2, 29, 13, 5, 0⟩ := by decide
example : parse_sheet_date (.str (S r"2024-05-01T12:30:15Z")) =
    some ⟨2024, 5, 1, 12, 30, 15⟩ := by decide
example : pyFloatQ? (S r"abc") = none ∧ pyFloatQ? (S r" 12.5 ") = some (mkRat 25 2) := by decide

/-- `ADV_GAME_STATS` expected columns, in writing order. -/
def ADV_COLUMNS : List PyStr :=
  [S r"Game Date", S r"Key", S r"Game ID", S r"Home Team", S r"Away Team",
   S r"Home Pts", S r"Away Pts", S r"Total Pts", S r"Home Poss", S r"Away Poss",
   S r"Poss Avg", S r"Home OffRtg", S r"Away OffRtg", S r"Home eFG%",
   S r"Away eFG%", S r"Home TS%", S r"Away TS%", S r"Home FTr", S r"Away FTr",
   S r"Home TOV%", S r"Away TOV%", S r"Home 3PAr", S r"Away 3PAr",
   S r"Home ORB%", S r"Away ORB%", S r"Status", S r"Last Attempt"]

/-- `NBA_COMPLETED_GAMES` expected columns. -/
def COMPLETED_EXPECTED : List PyStr :=
  [S r"Team", S r"Opponent", S r"HomeAway", S r"Game Date", S r"ESPN Game ID",
   S r"NBA Game ID", S r"Points For", S r"Points Allowed"]

/-- Configuration defaults (`os.environ` fallbacks). -/
def LOOKBACK_DAYS : Nat := 60

/-- Default per-run processing cap. -/
def MAX_GAMES_PER_RUN : Nat := 12

/-- Default retry attempt count. -/
def MAX_TRIES : Nat := 8

/-- Default backoff base (`1.25` seconds). -/
def SLEEP_BASE : ℚ := mkRat 5 4

/-- Lookup in a Python dict built by repeated `d[k] = v` assignment, modelled
as the association list of assignments in order: the last binding wins. -/
def dget {α : Type} (d : List (PyStr × α)) (k : PyStr) : Option α :=
  ((d.filter (fun p => decide (p.1 = k))).getLast?).map Prod.snd

/-- `d.get(k, default)`. -/
def dgetD {α : Type} (d : List (PyStr × α)) (k : PyStr) (dflt : α) : α :=
  (dget d k).getD dflt

/-- Python `list.index` (first occurrence; all uses are on lists containing
the key). -/
def listIdxOf : List PyStr → PyStr → Nat
  | [], _ => 0
  | x :: xs, k => if x = k then 0 else listIdxOf xs k + 1

/-- `str(x or "")`: the empty string when `x` is falsy, else `str(x)`. -/
def strOrEmpty (v : JVal) : PyStr := if valFalsy v then [] else pyStrOfVal v

/-- Substring test (Python `pat in s`). -/
def hasInfx (pat : PyStr) : PyStr → Bool
  | [] => isPfx pat []
  | c :: rest => isPfx pat (c :: rest) || hasInfx pat rest

/-- Python list indexing, raising `IndexError` out of range. -/
def pyIndex {α : Type} (l : List α) (i : Nat) : Except PyStr α :=
  match l.get? i with
  | some x => .ok x
  | none => .error (S r"list index out of range")

/-- The header-name-to-0-based-index dict `{h: i for i, h in
enumerate(headers) if h}` (later duplicates win, empty names are no keys). -/
def hdrMap (headers : List PyStr) (k : PyStr) : Option Nat :=
  if k = [] then none
  else ((headers.enum.filter (fun p => decide (p.2 = k))).getLast?).map Prod.fst

/-- Pure part of `ensure_headers`: the stripped header names with the missing
required names appended at the end (the sheet write-back of this row happens
in the orchestrator model). -/
def ensure_headers_names (hrow : List JVal) (required : List PyStr) : List PyStr :=
  let headers := hrow.map (fun v => pyStrip (pyStrOfVal v))
  headers ++ required.filter (fun h => (hdrMap headers h).isNone)

/-- One named result set of an NBA stats response. -/
structure RSet where
  name : PyStr
  headers : Option (List JVal)
  rowSet : Option (List (List JVal))
deriving DecidableEq

/-- A parsed NBA stats JSON response (only the `resultSets` member is ever
read; an absent or non-list member is `none`). -/
structure NbaResp where
  resultSets : Option (List RSet)
deriving DecidableEq

/-- `parse_resultset` from `adv_update.py`. -/
def parse_resultset (j : NbaResp) (nm : PyStr) : Except PyStr (List JVal × List (List JVal)) :=
  match (j.resultSets.getD []).find? (fun rs => decide (rs.name = nm)) with
  | none => .error (S r"Could not find " ++ nm ++ S r" in resultSets")
  | some t =>
    match t.headers, t.rowSet with
    | some hs, some rows =>
      if hs.isEmpty then .error (nm ++ S r" missing headers/rows") else .ok (hs, rows)
    | _, _ => .error (nm ++ S r" missing headers/rows")

/-- `idx_map` from `adv_update.py`: `{str(h).strip(): i}` (later wins). -/
def idx_map (headers : List JVal) (k : PyStr) : Option Nat :=
  ((headers.enum.filter (fun p => decide (pyStrip (pyStrOfVal p.2) = k))).getLast?).map
    Prod.fst

/-- `pick_home_away` from `adv_update.py`: choose the home/away rows by the
`MATCHUP` indicator (`" vs "` home, `" @ "` away, the last matching row
winning), with positional fallback. -/
def pick_home_away (rows : List (List JVal)) (hidx : PyStr → Option Nat) :
    Except PyStr (List JVal × List JVal) :=
  match hidx (S r"MATCHUP") with
  | none =>
    match rows with
    | [] => .error (S r"list index out of range")
    | [r0] => .ok (r0, r0)
    | r0 :: r1 :: _ => .ok (r0, r1)
  | some mi => do
    let (home, away) ← rows.foldlM
      (fun (st : Option (List JVal) × Option (List JVal)) r => do
        let v ← pyIndex r mi
        let m := strOrEmpty v
        pure (if hasInfx (S r" vs ") m then some r else st.1,
              if hasInfx (S r" @ ") m then some r else st.2))
      (none, none)
    match home, away with
    | some h, some a => pure (h, a)
    | _, _ =>
      match rows with
      | [] => .error (S r"list index out of range")
      | [r0] => .ok (r0, r0)
      | r0 :: r1 :: _ => .ok (r0, r1)

/-- `team_full` from `fetch_adv_row`: city + name, with graceful fallbacks. -/
def team_full (row : List JVal) (idx : PyStr → Option Nat) : Except PyStr PyStr := do
  let city ←
    match idx (S r"TEAM_CITY") with
    | some i => do
      let v ← pyIndex row i
      pure (strOrEmpty v)
    | none =>
      match idx (S r"TEAM_CITY_NAME") with
      | some i => do
        let v ← pyIndex row i
        pure (strOrEmpty v)
      | none => pure []
  let nm ←
    match idx (S r"TEAM_NAME") with
    | some i => do
      let v ← pyIndex row i
      pure (strOrEmpty v)
    | none => pure []
  let full := pyStrip (city ++ ' ' :: nm)
  if full ≠ [] then pure full
  else pure (pyStrip (if nm ≠ [] then nm else if city ≠ [] then city else []))

/-- The `h`/`a` helpers of `fetch_adv_row`: a named advanced field of a team
row, `""` when the column is absent. -/
def advField (row : List JVal) (idx : PyStr → Option Nat) (field : PyStr) :
    Except PyStr JVal :=
  match idx field with
  | some i => pyIndex row i
  | none => pure (.str [])

/-- The values `fetch_adv_row` extracts from the two box-score responses. -/
structure AdvParts where
  home_team : PyStr
  away_team : PyStr
  home_pts : JVal
  away_pts : JVal
  home_poss : JVal
  away_poss : JVal
  home_off : JVal
  away_off : JVal
  home_efg : JVal
  away_efg : JVal
  home_ts : JVal
  away_ts : JVal
  home_ftr : JVal
  away_ftr : JVal
  home_tov : JVal
  away_tov : JVal
  home_3par : JVal
  away_3par : JVal
  home_orb : JVal
  away_orb : JVal

/-- Extraction phase of `fetch_adv_row` (everything that can raise): parse
both `TeamStats` result sets, pick home/away rows, and read the team names,
points and advanced metrics.  `home_pts = home_trad[tix.get("PTS")]` raises
`TypeError` when `PTS` is absent and `IndexError` when the row is short. -/
def extractAdvParts (trad adv : NbaResp) : Except PyStr AdvParts := do
  let (trad_headers, trad_rows) ← parse_resultset trad (S r"TeamStats")
  let (adv_headers, adv_rows) ← parse_resultset adv (S r"TeamStats")
  let tix := idx_map trad_headers
  let aix := idx_map adv_headers
  let (home_adv, away_adv) ← pick_home_away adv_rows aix
  let (home_trad, away_trad) ← pick_home_away trad_rows tix
  let home_team ← team_full home_adv aix
  let away_team ← team_full away_adv aix
  let home_pts ←
    match tix (S r"PTS") with
    | some i => pyIndex home_trad i
    | none => Except.error (S r"list indices must be integers or slices, not NoneType")
  let away_pts ←
    match tix (S r"PTS") with
    | some i => pyIndex away_trad i
    | none => Except.error (S r"list indices must be integers or slices, not NoneType")
  let home_poss ← advField home_adv aix (S r"POSS")
  let away_poss ← advField away_adv aix (S r"POSS")
  let home_off ← advField home_adv aix (S r"OFF_RATING")
  let away_off ← advField away_adv aix (S r"OFF_RATING")
  let home_efg ← advField home_adv aix (S r"EFG_PCT")
  let away_efg ← advField away_adv aix (S r"EFG_PCT")
  let home_ts ← advField home_adv aix (S r"TS_PCT")
  let away_ts ← advField away_adv aix (S r"TS_PCT")
  let home_ftr ← advField home_adv aix (S r"FTA_RATE")
  let away_ftr ← advField away_adv aix (S r"FTA_RATE")
  let home_tov ← advField home_adv aix (S r"TM_TOV_PCT")
  let away_tov ← advField away_adv aix (S r"TM_TOV_PCT")
  let home_3par ← advField home_adv aix (S r"FG3A_RATE")
  let away_3par ← advField away_adv aix (S r"FG3A_RATE")
  let home_orb ← advField home_adv aix (S r"OREB_PCT")
  let away_orb ← advField away_adv aix (S r"OREB_PCT")
  pure ⟨home_team, away_team, home_pts, away_pts, home_poss, away_poss,
    home_off, away_off, home_efg, away_efg, home_ts, away_ts, home_ftr,
    away_ftr, home_tov, away_tov, home_3par, away_3par, home_orb, away_orb⟩

/-- Assembly phase of `fetch_adv_row`: derive totals, the key and the status
and lay the row out in `ADV_COLUMNS` order. -/
def buildAdvRow (nba_game_id : PyStr) (game_dt_hint : Option PyDateTime)
    (existing_key : PyStr) (now : PyStr) (p : AdvParts) : List JVal :=
  let total_pts : JVal :=
    if is_num p.home_pts ∧ is_num p.away_pts then
      .num (jvalQ p.home_pts + jvalQ p.away_pts)
    else .str []
  let poss_avg : JVal :=
    if is_num p.home_poss ∧ is_num p.away_poss then
      .num ((jvalQ p.home_poss + jvalQ p.away_poss) / 2)
    else .str []
  let game_date_value : PyStr :=
    match game_dt_hint with
    | some t => formatMDY_HM t
    | none => []
  let key_value : PyStr :=
    if existing_key ≠ [] then pyStrip existing_key
    else build_key game_dt_hint p.home_team p.away_team
  let row : List JVal :=
    [.str game_date_value, .str key_value, .str nba_game_id, .str p.home_team,
     .str p.away_team, p.home_pts, p.away_pts, total_pts, p.home_poss,
     p.away_poss, poss_avg, p.home_off, p.away_off, p.home_efg, p.away_efg,
     p.home_ts, p.away_ts, p.home_ftr, p.away_ftr, p.home_tov, p.away_tov,
     p.home_3par, p.away_3par, p.home_orb, p.away_orb, .str (S r"OK"),
     .str now]
  if ¬ is_num p.home_pts ∨ ¬ is_num p.away_pts then
    row.set (listIdxOf ADV_COLUMNS (S r"Status")) (.str (S r"ERR: missing points"))
  else row

/-- `fetch_adv_row` from `adv_update.py`, as a function of the two already
fetched responses; `now` is the `now_iso()` timestamp taken while building. -/
def fetch_adv_row (nba_game_id : PyStr) (game_dt_hint : Option PyDateTime)
    (existing_key : PyStr) (trad adv : NbaResp) (now : PyStr) :
    Except PyStr (List JVal) :=
  (extractAdvParts trad adv).map (buildAdvRow nba_game_id game_dt_hint existing_key now)

/-- Outcome of one HTTP attempt inside `nba_fetch`: an exception from
`requests.get`, or a response with a status code, a body text, and the result
of `r.json()` (which itself can raise, inside the `try`). -/
inductive AttRes (α : Type) where
  | exc (msg : PyStr)
  | resp (status : Nat) (text : PyStr) (body : Except PyStr α)

/-- What one iteration of the `nba_fetch` loop produces: the parsed body on
HTTP 200 with parseable JSON, otherwise the `str()` of the `last_err` it
records (the caught exception, or `RuntimeError(f"NBA HTTP {code}: {text[:250]}")`). -/
def attOutcome {α : Type} : AttRes α → Except PyStr α
  | .exc m => .error m
  | .resp st tx body =>
    if st = 200 then body
    else .error (S r"NBA HTTP " ++ natStr st ++ S r": " ++ tx.take 250)

/-- Result of `nba_fetch`: the value or fatal error, the number of attempts
made, and the `jitter_sleep` durations in order. -/
structure FetchResult (α : Type) where
  result : Except PyStr α
  tries : Nat
  sleeps : List ℚ

/-- The `for i in range(MAX_TRIES)` loop of `nba_fetch`; `remaining` counts
the iterations left, `i` the current attempt index.  After each failed
attempt it sleeps `SLEEP_BASE * 1.6 ** i + jitter` (`jit i` models
`random.uniform(0, 0.5)`). -/
def nbaFetchGo {α : Type} (att : Nat → AttRes α) (sb : ℚ) (jit : Nat → ℚ)
    (maxTries : Nat) : Nat → Nat → Option PyStr → List ℚ → FetchResult α
  | 0, i, lastErr, sleeps =>
    ⟨.error (S r"NBA fetch failed after " ++ natStr maxTries ++ S r" tries: " ++
        lastErr.getD (S r"None")), i, sleeps⟩
  | remaining + 1, i, _lastErr, sleeps =>
    match attOutcome (att i) with
    | .ok v => ⟨.ok v, i + 1, sleeps⟩
    | .error m =>
      nbaFetchGo att sb jit maxTries remaining (i + 1) (some m)
        (sleeps ++ [sb * (mkRat 8 5) ^ i + jit i])

/-- `nba_fetch` from `adv_update.py` over a given sequence of attempt
outcomes. -/
def nba_fetch {α : Type} (att : Nat → AttRes α) (maxTries : Nat) (sb : ℚ)
    (jit : Nat → ℚ) : FetchResult α :=
  nbaFetchGo att sb jit maxTries maxTries 0 none []

/-- One row reference collected by `read_completed_index`. -/
structure RowRef where
  rownum : Nat
  espn_id : PyStr
  nba_id_existing : PyStr
deriving DecidableEq

/-- Matchup identity taken from a home-perspective completed-games row. -/
structure CGInfo where
  date : PyDateTime
  home : PyStr
  away : PyStr
deriving DecidableEq

/-- Result of `read_completed_index`. -/
structure CompletedIdx where
  colNames : List PyStr
  espn_to_info : List (PyStr × CGInfo)
  row_refs : List RowRef

/-- `getv` from `read_completed_index`: cell of a named column, `""` when the
row is short (the column index always exists after `ensure_headers`; the
`none` arm is unreachable from `read_completed_index`). -/
def getvCell (col : PyStr → Option Nat) (r : List JVal) (nm : PyStr) : JVal :=
  match col nm with
  | some i => if i < r.length then r.getD i .null else .str []
  | none => .str []

/-- The row loop of `read_completed_index`, carrying the sheet row number
(starting at 2) and the `espn_to_info` accumulator (first home row wins). -/
def completedScan (col : PyStr → Option Nat) (cutoffKey : ℤ) :
    Nat → List (PyStr × CGInfo) → List (List JVal) →
      List (PyStr × CGInfo) × List RowRef
  | _, infos, [] => (infos, [])
  | rn, infos, r :: rest =>
    let team := getvCell col r (S r"Team")
    let opp := getvCell col r (S r"Opponent")
    let homeaway := pyLower (pyStrip (strOrEmpty (getvCell col r (S r"HomeAway"))))
    let espn := pyStrip (strOrEmpty (getvCell col r (S r"ESPN Game ID")))
    let nbaExisting := pyStrip (strOrEmpty (getvCell col r (S r"NBA Game ID")))
    match parse_sheet_date (getvCell col r (S r"Game Date")) with
    | none => completedScan col cutoffKey (rn + 1) infos rest
    | some t =>
      if espn = [] then completedScan col cutoffKey (rn + 1) infos rest
      else if dtKey t < cutoffKey then completedScan col cutoffKey (rn + 1) infos rest
      else
        let infos2 :=
          if (dget infos espn).isNone ∧ homeaway = S r"home" then
            infos ++ [(espn, ⟨t, pyStrOfVal team, pyStrOfVal opp⟩)]
          else infos
        let res := completedScan col cutoffKey (rn + 1) infos2 rest
        (res.1, ⟨rn, espn, nbaExisting⟩ :: res.2)

/-- `read_completed_index` from `adv_update.py`: ensure headers, then walk the
data rows (sheet rows 2..), keeping rows with a non-empty ESPN id and a
parseable date not older than `now - LOOKBACK_DAYS` (`lookback` is the
configured window; `now` models `datetime.now()`). -/
def read_completed_index (table : List (List JVal)) (now : PyDateTime)
    (lookback : Nat) : Except PyStr CompletedIdx :=
  match table with
  | [] => .error (S r"NBA_COMPLETED_GAMES missing header row")
  | hrow :: dataRows =>
    if hrow.isEmpty then .error (S r"NBA_COMPLETED_GAMES missing header row")
    else
      let names := ensure_headers_names hrow COMPLETED_EXPECTED
      let col := hdrMap names
      let cutoffKey := dtKey now - (lookback : ℤ) * 86400
      let res := completedScan col cutoffKey 2 [] dataRows
      .ok ⟨names, res.1, res.2⟩

/-- The gid of a stored ADV row as `read_adv_index` extracts it:
`str(r[gid_idx]).strip()`, `""` for short rows. -/
def extractGid (gidIdx : Nat) (r : List JVal) : PyStr :=
  if gidIdx < r.length then pyStrip (pyStrOfVal (r.getD gidIdx .null)) else []

/-- The three dicts built by `read_adv_index`. -/
structure AdvIndex where
  gid_to_row : List (PyStr × Nat)
  gid_to_status : List (PyStr × PyStr)
  gid_to_key : List (PyStr × PyStr)
deriving DecidableEq

/-- The row loop of `read_adv_index` (sheet rows from 2); rows with an empty
gid are skipped, the status is stored stripped and upper-cased, the key
stripped. -/
def advIndexScan (gidIdx statusIdx keyIdx : Nat) :
    Nat → List (List JVal) → AdvIndex
  | _, [] => ⟨[], [], []⟩
  | rn, r :: rest =>
    let tail := advIndexScan gidIdx statusIdx keyIdx (rn + 1) rest
    let gid := extractGid gidIdx r
    if gid = [] then tail
    else
      ⟨(gid, rn) :: tail.gid_to_row,
       (gid,
         if statusIdx < r.length then pyUpper (pyStrip (pyStrOfVal (r.getD statusIdx .null)))
         else []) :: tail.gid_to_status,
       (gid,
         if keyIdx < r.length then pyStrip (pyStrOfVal (r.getD keyIdx .null))
         else []) :: tail.gid_to_key⟩

/-- `read_adv_index` from `adv_update.py`: ensure the ADV headers and index
the existing rows by Game ID.  Also returns the ensured header names so the
orchestrator can write the extended header row back. -/
def read_adv_index (table : List (List JVal)) :
    Except PyStr (List PyStr × AdvIndex) :=
  match table with
  | [] => .error (S r"ADV_GAME_STATS missing header row")
  | hrow :: dataRows =>
    if hrow.isEmpty then .error (S r"ADV_GAME_STATS missing header row")
    else
      let names := ensure_headers_names hrow ADV_COLUMNS
      let col := hdrMap names
      let gi := (col (S r"Game ID")).getD 0
      let si := (col (S r"Status")).getD 0
      let ki := (col (S r"Key")).getD 0
      .ok (names, advIndexScan gi si ki 2 dataRows)

/-- The error row built by `main`'s `except` branch: all cells empty except
Game ID, `Status = "ERR: " + str(e)[:160]` and a fresh Last Attempt stamp. -/
def errRow (gid e now : PyStr) : List JVal :=
  ((((List.replicate ADV_COLUMNS.length (JVal.str [])).set
        (listIdxOf ADV_COLUMNS (S r"Game ID")) (.str gid)).set
      (listIdxOf ADV_COLUMNS (S r"Status")) (.str (S r"ERR: " ++ e.take 160))).set
    (listIdxOf ADV_COLUMNS (S r"Last Attempt")) (.str now))

/-- Python truthiness of `gid_to_row.get(nba_id)` (row numbers start at 2, so
`some 0` never occurs in practice, but truthiness is modelled faithfully). -/
def truthyRowNum : Option Nat → Bool
  | some n => n ≠ 0
  | none => false

/-- Mutable state of the candidate loop in `main`. -/
structure WalkSt where
  processed : Nat
  updates : List (Nat × List JVal)
  appends : List (List JVal)
deriving DecidableEq

/-- One iteration of `main`'s candidate loop (after the cap check): skip when
the existing row's status is `OK`, otherwise build the row — `buildRow`
models `try: fetch_adv_row(...) except ...` via `Except`, the `error` text
being the exception's `str()` — and classify it as update or append. -/
def walkStep (idx : AdvIndex)
    (buildRow : PyStr → PyDateTime → PyStr → Except PyStr (List JVal))
    (now : PyStr) (st : WalkSt) (c : PyStr × PyDateTime) : WalkSt :=
  let existing_row := dget idx.gid_to_row c.1
  let existing_status := dgetD idx.gid_to_status c.1 []
  let existing_key := dgetD idx.gid_to_key c.1 []
  if truthyRowNum existing_row ∧ existing_status = S r"OK" then st
  else
    let rowvals :=
      match buildRow c.1 c.2 existing_key with
      | .ok v => v
      | .error e => errRow c.1 e now
    if truthyRowNum existing_row then
      ⟨st.processed + 1, st.updates ++ [(existing_row.getD 0, rowvals)], st.appends⟩
    else
      ⟨st.processed + 1, st.updates, st.appends ++ [rowvals]⟩

/-- The candidate loop of `main` (step 5/6): stop at the cap, else run one
`walkStep` per candidate. -/
def runWalk (idx : AdvIndex) (maxGames : Nat)
    (buildRow : PyStr → PyDateTime → PyStr → Except PyStr (List JVal))
    (now : PyStr) : List (PyStr × PyDateTime) → WalkSt → WalkSt
  | [], st => st
  | c :: rest, st =>
    if maxGames ≤ st.processed then st
    else runWalk idx maxGames buildRow now rest (walkStep idx buildRow now st c)

/-- Stable ascending insertion by row number (`updates.sort(key=...)`). -/
def insSorted (x : Nat × List JVal) : List (Nat × List JVal) → List (Nat × List JVal)
  | [] => [x]
  | y :: t => if y.1 ≤ x.1 then y :: insSorted x t else x :: y :: t

/-- Stable sort of the update batch by row number. -/
def sortUpdates (l : List (Nat × List JVal)) : List (Nat × List JVal) :=
  l.foldl (fun acc x => insSorted x acc) []

/-- Commit one update: overwrite sheet row `u.1` (list position `u.1 - 1`)
with the full-width row. -/
def applyUpdate (t : List (List JVal)) (u : Nat × List JVal) : List (List JVal) :=
  t.set (u.1 - 1) u.2

/-- Steps 4–6 of `main`: load the ADV index, walk the candidate list (already
sorted newest-first by step 5), then commit all updates (sorted by row
number) and append all new rows.  The table is the ADV tab: row 1 headers,
rows 2.. data. -/
def runMain (table : List (List JVal)) (cands : List (PyStr × PyDateTime))
    (buildRow : PyStr → PyDateTime → PyStr → Except PyStr (List JVal))
    (now : PyStr) (maxGames : Nat) : Except PyStr (List (List JVal)) :=
  match read_adv_index table with
  | .error e => .error e
  | .ok (names, idx) =>
    let table1 : List (List JVal) :=
      match table with
      | [] => table
      | hrow :: rest =>
        (if names.length = hrow.length then hrow else names.map JVal.str) :: rest
    let w := runWalk idx maxGames buildRow now cands ⟨0, [], []⟩
    .ok ((sortUpdates w.updates).foldl applyUpdate table1 ++ w.appends)

/-- Inputs of one run (its candidates, its fetch outcomes, its clock). -/
structure RunSpec where
  cands : List (PyStr × PyDateTime)
  buildRow : PyStr → PyDateTime → PyStr → Except PyStr (List JVal)
  now : PyStr

/-- A sequence of runs of the upsert orchestrator over the same table. -/
def runMany (maxGames : Nat) : List (List JVal) → List RunSpec →
    Except PyStr (List (List JVal))
  | t, [] => .ok t
  | t, r :: rest =>
    match runMain t r.cands r.buildRow r.now maxGames with
    | .ok t2 => runMany maxGames t2 rest
    | .error e => .error e

/-- The non-empty Game IDs of the data rows of an ADV table. -/
def tableGids (gidIdx : Nat) (rows : List (List JVal)) : List PyStr :=
  rows.filterMap (fun r =>
    let g := extractGid gidIdx r
    if g = [] then none else some g)

/-- The row filter applied by `read_completed_index` (the amended lookback
condition): a non-empty ESPN id, a parseable date, and a parsed date not
before `now - LOOKBACK_DAYS` — with no upper bound. -/
def keptRow (col : PyStr → Option Nat) (cutoffKey : ℤ) (r : List JVal) : Bool :=
  match parse_sheet_date (getvCell col r (S r"Game Date")) with
  | none => false
  | some t =>
    if pyStrip (strOrEmpty (getvCell col r (S r"ESPN Game ID"))) = [] then false
    else if dtKey t < cutoffKey then false
    else true

/-- Occurrence of `a` as a contiguous substring of `s`. -/
def occursIn (a s : PyStr) : Prop := ∃ u v, u ++ a ++ v = s

/-- Suffix test via reversal. -/
def isSfx (p s : PyStr) : Bool := isPfx p.reverse s.reverse

/-- The first character, if any, is not whitespace. -/
def headOkWs (s : PyStr) : Bool :=
  match s.head? with
  | none => true
  | some c => !isWsCh c

/-- The last character, if any, is not whitespace. -/
def lastOkWs (s : PyStr) : Bool :=
  match s.getLast? with
  | none => true
  | some c => !isWsCh c

/-- Every whitespace character of the string is a plain space. -/
def wsOnlySpace (s : PyStr) : Bool := s.all (fun c => !isWsCh c || c = ' ')

/-- No two adjacent characters are both whitespace. -/
def noAdjWs : PyStr → Bool
  | c :: d :: t => (!(isWsCh c && isWsCh d)) && noAdjWs (d :: t)
  | _ => true

/-! ### Generic helper lemmas -/

/-- `Char.ofNat` round-trips on valid (BMP) code points. -/
theorem charToNat_ofNat (n : Nat) (h : n < 55296) : (Char.ofNat n).toNat = n := by
  rw [Char.ofNat, dif_pos (Or.inl h)]
  simp [Char.ofNatAux, Char.toNat, UInt32.toNat, UInt32.ofNat', Fin.ofNat', BitVec.ofNat]

/-! ### C9: column-letter conversion -/

theorem a1Value_foldl (v : Nat) (y : PyStr) :
    y.foldl (fun a c => a * 26 + (c.toNat - 64)) v = v * 26 ^ y.length + a1Value y := by
  induction y generalizing v with
  | nil => simp [a1Value]
  | cons c t ih =>
    show t.foldl _ (v * 26 + (c.toNat - 64)) = _
    rw [ih]
    have h2 : a1Value (c :: t) = (0 * 26 + (c.toNat - 64)) * 26 ^ t.length + a1Value t := by
      show t.foldl _ (0 * 26 + (c.toNat - 64)) = _
      rw [ih]
    rw [h2]
    simp only [List.length_cons, pow_succ]
    ring

theorem col_to_a1_go_val :
    ∀ fuel n acc, n ≤ fuel →
      a1Value (col_to_a1_go fuel n acc) = n * 26 ^ acc.length + a1Value acc := by
  intro fuel
  induction fuel with
  | zero =>
    intro n acc hn
    interval_cases n
    simp [col_to_a1_go]
  | succ f ih =>
    intro n acc hn
    match n with
    | 0 => simp [col_to_a1_go]
    | m + 1 =>
      show a1Value (col_to_a1_go f (m / 26) (Char.ofNat (65 + m % 26) :: acc)) = _
      rw [ih (m / 26) _ (by have := Nat.div_le_self m 26; omega)]
      have hv : a1Value (Char.ofNat (65 + m % 26) :: acc) =
          (m % 26 + 1) * 26 ^ acc.length + a1Value acc := by
        show List.foldl _ (0 * 26 + ((Char.ofNat (65 + m % 26)).toNat - 64)) acc = _
        rw [a1Value_foldl, charToNat_ofNat (65 + m % 26) (by have := Nat.mod_lt m (show 0 < 26 by omega); omega)]
        have : 65 + m % 26 - 64 = m % 26 + 1 := by omega
        rw [this]
        ring
      rw [hv]
      have hdm : 26 * (m / 26) + m % 26 = m := Nat.div_add_mod m 26
      calc m / 26 * 26 ^ (Char.ofNat (65 + m % 26) :: acc).length +
            ((m % 26 + 1) * 26 ^ acc.length + a1Value acc)
          = (26 * (m / 26) + m % 26 + 1) * 26 ^ acc.length + a1Value acc := by
            simp only [List.length_cons, pow_succ]
            ring
        _ = (m + 1) * 26 ^ acc.length + a1Value acc := by rw [hdm]

theorem a1Value_col_to_a1 (i : Nat) : a1Value (col_to_a1 i) = i + 1 := by
  have := col_to_a1_go_val (i + 1) (i + 1) [] le_rfl
  simpa [col_to_a1, a1Value] using this

/-- C9: column-index-to-letter conversion is standard bijective base-26:
`0 ↦ "A"`, `25 ↦ "Z"`, `26 ↦ "AA"`, and for every index the inverse
conversion (`a1_to_col`, the bijective base-26 value minus one) undoes
`col_to_a1`; in particular `col_to_a1` is injective. -/
theorem C9_col_letter_roundtrip :
    col_to_a1 0 = S r"A" ∧ col_to_a1 25 = S r"Z" ∧ col_to_a1 26 = S r"AA" ∧
      (∀ i : Nat, a1_to_col (col_to_a1 i) = i) ∧
      Function.Injective col_to_a1 := by
  refine ⟨by decide, by decide, by decide, ?_, ?_⟩
  · intro i
    simp [a1_to_col, a1Value_col_to_a1]
  · intro i j hij
    have hi := a1Value_col_to_a1 i
    have hj := a1Value_col_to_a1 j
    rw [hij] at hi
    omega

/-! ### C3: per-run processing cap -/

theorem walkStep_processed (idx : AdvIndex) (b : PyStr → PyDateTime → PyStr → Except PyStr (List JVal))
    (now : PyStr) (st : WalkSt) (c : PyStr × PyDateTime) :
    (walkStep idx b now st c = st ∧
        (walkStep idx b now st c).processed = st.processed) ∨
      ((walkStep idx b now st c).processed = st.processed + 1 ∧
        (walkStep idx b now st c).updates.length + (walkStep idx b now st c).appends.length =
          st.updates.length + st.appends.length + 1) := by
  unfold walkStep
  by_cases h1 : truthyRowNum (dget idx.gid_to_row c.1) = true ∧
      dgetD idx.gid_to_status c.1 [] = S r"OK"
  · left
    simp [h1]
  · right
    rw [if_neg h1]
    by_cases h2 : truthyRowNum (dget idx.gid_to_row c.1) = true
    · simp [h2]
      omega
    · simp [h2]
      omega

theorem runWalk_cap_aux (idx : AdvIndex) (mg : Nat)
    (b : PyStr → PyDateTime → PyStr → Except PyStr (List JVal)) (now : PyStr) :
    ∀ cands st, st.processed ≤ mg →
      st.updates.length + st.appends.length + st.processed =
        st.processed + st.updates.length + st.appends.length →
      (runWalk idx mg b now cands st).processed ≤ mg ∧
        (runWalk idx mg b now cands st).updates.length +
            (runWalk idx mg b now cands st).appends.length +
            st.processed =
          (runWalk idx mg b now cands st).processed +
            st.updates.length + st.appends.length := by
  intro cands
  induction cands with
  | nil =>
    intro st h _
    have hnl : runWalk idx mg b now [] st = st := rfl
    rw [hnl]
    exact ⟨h, by omega⟩
  | cons c rest ih =>
    intro st h _
    have hru : runWalk idx mg b now (c :: rest) st =
        if mg ≤ st.processed then st
        else runWalk idx mg b now rest (walkStep idx b now st c) := rfl
    rw [hru]
    by_cases hcap : mg ≤ st.processed
    · simp only [if_pos hcap]
      exact ⟨h, by omega⟩
    · simp only [if_neg hcap]
      rcases walkStep_processed idx b now st c with ⟨heq, hp⟩ | ⟨hp, hlen⟩
      · rw [heq]
        exact ih st h (by omega)
      · have h1 : (walkStep idx b now st c).processed ≤ mg := by omega
        have := ih (walkStep idx b now st c) h1 (by omega)
        refine ⟨this.1, by omega⟩

/-- C3: in every run at most `maxGames` candidates have a row built
(`MAX_GAMES_PER_RUN`, default 12); the number of built rows (updates plus
appends) equals the processed count, so candidates skipped for an `OK`
status do not consume the cap. -/
theorem C3_per_run_cap (idx : AdvIndex) (mg : Nat)
    (b : PyStr → PyDateTime → PyStr → Except PyStr (List JVal)) (now : PyStr)
    (cands : List (PyStr × PyDateTime)) :
    (runWalk idx mg b now cands ⟨0, [], []⟩).processed ≤ mg ∧
      (runWalk idx mg b now cands ⟨0, [], []⟩).updates.length +
          (runWalk idx mg b now cands ⟨0, [], []⟩).appends.length =
        (runWalk idx mg b now cands ⟨0, [], []⟩).processed ∧
      MAX_GAMES_PER_RUN = 12 := by
  have := runWalk_cap_aux idx mg b now cands ⟨0, [], []⟩ (by simp) (by simp)
  refine ⟨this.1, ?_, rfl⟩
  have h2 := this.2
  simp only [List.length_nil] at h2
  omega

/-! ### C5: exceptions become error rows, never dropped -/

theorem errRow_eq (g e now : PyStr) :
    errRow g e now =
      [.str [], .str [], .str g, .str [], .str [], .str [], .str [], .str [],
       .str [], .str [], .str [], .str [], .str [], .str [], .str [], .str [],
       .str [], .str [], .str [], .str [], .str [], .str [], .str [], .str [],
       .str [], .str (S r"ERR: " ++ e.take 160), .str now] := rfl

/-- C5: when the row build raises (modelled by `buildRow` returning an
error), the walked candidate still yields exactly one written row — an
update when a row exists, an append otherwise — whose metric cells are all
empty, whose Game ID is preserved, whose Status is `"ERR: "` plus the
exception text truncated to 160 characters, and whose Last Attempt is the
fresh timestamp. -/
theorem C5_exception_error_row (idx : AdvIndex)
    (b : PyStr → PyDateTime → PyStr → Except PyStr (List JVal)) (now : PyStr)
    (st : WalkSt) (g : PyStr) (d : PyDateTime) (e : PyStr)
    (hb : b g d (dgetD idx.gid_to_key g []) = .error e)
    (hns : ¬ (truthyRowNum (dget idx.gid_to_row g) = true ∧
        dgetD idx.gid_to_status g [] = S r"OK")) :
    walkStep idx b now st (g, d) =
        (if truthyRowNum (dget idx.gid_to_row g) then
          ⟨st.processed + 1,
           st.updates ++ [((dget idx.gid_to_row g).getD 0, errRow g e now)],
           st.appends⟩
        else ⟨st.processed + 1, st.updates, st.appends ++ [errRow g e now]⟩) ∧
      (walkStep idx b now st (g, d)).updates.length +
          (walkStep idx b now st (g, d)).appends.length =
        st.updates.length + st.appends.length + 1 ∧
      (errRow g e now).length = ADV_COLUMNS.length ∧
      (errRow g e now).get? (listIdxOf ADV_COLUMNS (S r"Game ID")) = some (.str g) ∧
      (errRow g e now).get? (listIdxOf ADV_COLUMNS (S r"Status")) =
        some (.str (S r"ERR: " ++ e.take 160)) ∧
      (errRow g e now).get? (listIdxOf ADV_COLUMNS (S r"Last Attempt")) =
        some (.str now) ∧
      (∀ j, j < 27 → j ≠ 2 → j ≠ 25 → j ≠ 26 →
        (errRow g e now).get? j = some (.str [])) := by
  have hstep : walkStep idx b now st (g, d) =
      (if truthyRowNum (dget idx.gid_to_row g) then
        ⟨st.processed + 1,
         st.updates ++ [((dget idx.gid_to_row g).getD 0, errRow g e now)],
         st.appends⟩
      else ⟨st.processed + 1, st.updates, st.appends ++ [errRow g e now]⟩) := by
    unfold walkStep
    rw [if_neg hns, hb]
  refine ⟨hstep, ?_, by rfl, by rfl, by rfl, by rfl, ?_⟩
  · rw [hstep]
    by_cases h2 : truthyRowNum (dget idx.gid_to_row g) = true
    · simp [h2]
      try omega
    · simp [h2]
      try omega
  · intro j hj h2 h25 h26
    rw [errRow_eq]
    interval_cases j <;> first | rfl | omega

/-- Witness for C5 at a concrete input. -/
theorem C5_exception_error_row_witness :
    walkStep ⟨[], [], []⟩ (fun _ _ _ => .error (S r"boom")) (S r"T")
        ⟨0, [], []⟩ (S r"G9", ⟨2024, 5, 1, 0, 0, 0⟩) =
      ⟨1, [], [errRow (S r"G9") (S r"boom") (S r"T")]⟩ := by
  have h := C5_exception_error_row ⟨[], [], []⟩ (fun _ _ _ => .error (S r"boom"))
    (S r"T") ⟨0, [], []⟩ (S r"G9") ⟨2024, 5, 1, 0, 0, 0⟩ (S r"boom") (by rfl)
    (by decide)
  have h1 := h.1
  simpa using h1

/-! ### C2: OK rows are final, any other status is retried in place -/

/-- C2: a walked candidate whose existing row has status `OK` is skipped —
the state is unchanged (so nothing is fetched or written for it) and the
loop proceeds to the rest — while a candidate with an existing row of any
other status is rebuilt and recorded as an in-place update of that row
number. -/
theorem C2_skip_ok_retry_others (idx : AdvIndex) (mg : Nat)
    (b : PyStr → PyDateTime → PyStr → Except PyStr (List JVal)) (now : PyStr)
    (st : WalkSt) (rest : List (PyStr × PyDateTime)) (g : PyStr) (d : PyDateTime) :
    (truthyRowNum (dget idx.gid_to_row g) = true →
      dgetD idx.gid_to_status g [] = S r"OK" →
      walkStep idx b now st (g, d) = st ∧
        (st.processed < mg →
          runWalk idx mg b now ((g, d) :: rest) st = runWalk idx mg b now rest st)) ∧
    (∀ rn, dget idx.gid_to_row g = some rn → rn ≠ 0 →
      dgetD idx.gid_to_status g [] ≠ S r"OK" →
      walkStep idx b now st (g, d) =
        ⟨st.processed + 1,
         st.updates ++
           [(rn,
             match b g d (dgetD idx.gid_to_key g []) with
             | .ok v => v
             | .error e => errRow g e now)],
         st.appends⟩) := by
  constructor
  · intro htr hok
    have hskip : walkStep idx b now st (g, d) = st := by
      unfold walkStep
      rw [if_pos ⟨htr, hok⟩]
    refine ⟨hskip, fun hlt => ?_⟩
    have hru : runWalk idx mg b now ((g, d) :: rest) st =
        if mg ≤ st.processed then st
        else runWalk idx mg b now rest (walkStep idx b now st (g, d)) := rfl
    rw [hru, if_neg (by omega), hskip]
  · intro rn hrn h0 hne
    unfold walkStep
    rw [if_neg (by
      intro hcon
      exact hne hcon.2)]
    rw [hrn]
    simp only [truthyRowNum, ne_eq, decide_eq_true_eq]
    rw [if_pos h0]
    simp

/-- Witness for C2 at a concrete index: a row with stored status `OK` is
skipped, one with `ERR: TIMEOUT` is rebuilt as an in-place update of its
row. -/
theorem C2_skip_ok_retry_others_witness :
    (walkStep ⟨[(S r"G1", 2)], [(S r"G1", S r"OK")], []⟩
        (fun g _ _ => .ok [.str g]) (S r"T") ⟨0, [], []⟩
        (S r"G1", ⟨2024, 5, 1, 0, 0, 0⟩) = ⟨0, [], []⟩ ∧
      runWalk ⟨[(S r"G1", 2)], [(S r"G1", S r"OK")], []⟩ 12
          (fun g _ _ => .ok [.str g]) (S r"T")
          [(S r"G1", ⟨2024, 5, 1, 0, 0, 0⟩)] ⟨0, [], []⟩ =
        runWalk ⟨[(S r"G1", 2)], [(S r"G1", S r"OK")], []⟩ 12
          (fun g _ _ => .ok [.str g]) (S r"T") [] ⟨0, [], []⟩) ∧
    walkStep ⟨[(S r"G2", 3)], [(S r"G2", S r"ERR: TIMEOUT")], []⟩
        (fun g _ _ => .ok [.str g]) (S r"T") ⟨0, [], []⟩
        (S r"G2", ⟨2024, 5, 1, 0, 0, 0⟩) =
      ⟨1, [(3, [.str (S r"G2")])], []⟩ := by
  constructor
  · have h := (C2_skip_ok_retry_others ⟨[(S r"G1", 2)], [(S r"G1", S r"OK")], []⟩ 12
      (fun g _ _ => .ok [.str g]) (S r"T") ⟨0, [], []⟩ []
      (S r"G1") ⟨2024, 5, 1, 0, 0, 0⟩).1 (by decide) (by decide)
    exact ⟨h.1, h.2 (by decide)⟩
  · have h := (C2_skip_ok_retry_others ⟨[(S r"G2", 3)], [(S r"G2", S r"ERR: TIMEOUT")], []⟩ 12
      (fun g _ _ => .ok [.str g]) (S r"T") ⟨0, [], []⟩ []
      (S r"G2") ⟨2024, 5, 1, 0, 0, 0⟩).2 3 (by decide) (by decide) (by decide)
    exact h

/-! ### Row-assembly lemmas shared by the status/points claims -/

theorem fetch_adv_row_ok_decomp (gid : PyStr) (hint : Option PyDateTime)
    (key : PyStr) (trad adv : NbaResp) (now : PyStr) (row : List JVal)
    (h : fetch_adv_row gid hint key trad adv now = .ok row) :
    ∃ p : AdvParts, extractAdvParts trad adv = .ok p ∧
      row = buildAdvRow gid hint key now p := by
  unfold fetch_adv_row at h
  cases he : extractAdvParts trad adv with
  | error e =>
    rw [he] at h
    exact absurd h (by simp [Except.map])
  | ok p =>
    rw [he] at h
    refine ⟨p, rfl, ?_⟩
    have : Except.map (buildAdvRow gid hint key now) (Except.ok p) =
        (.ok (buildAdvRow gid hint key now p) : Except PyStr (List JVal)) := rfl
    rw [this] at h
    exact (Except.ok.inj h).symm

theorem buildAdvRow_cells (gid : PyStr) (hint : Option PyDateTime)
    (key : PyStr) (now : PyStr) (p : AdvParts) :
    (buildAdvRow gid hint key now p).length = 27 ∧
      (buildAdvRow gid hint key now p).get? 2 = some (.str gid) ∧
      (buildAdvRow gid hint key now p).get? 5 = some p.home_pts ∧
      (buildAdvRow gid hint key now p).get? 6 = some p.away_pts ∧
      (buildAdvRow gid hint key now p).get? 7 =
        some (if is_num p.home_pts ∧ is_num p.away_pts then
          .num (jvalQ p.home_pts + jvalQ p.away_pts) else .str []) ∧
      (buildAdvRow gid hint key now p).get? 8 = some p.home_poss ∧
      (buildAdvRow gid hint key now p).get? 9 = some p.away_poss ∧
      (buildAdvRow gid hint key now p).get? 10 =
        some (if is_num p.home_poss ∧ is_num p.away_poss then
          .num ((jvalQ p.home_poss + jvalQ p.away_poss) / 2) else .str []) ∧
      (buildAdvRow gid hint key now p).get? 25 =
        some (.str (if is_num p.home_pts ∧ is_num p.away_pts then S r"OK"
          else S r"ERR: missing points")) ∧
      (buildAdvRow gid hint key now p).get? 26 = some (.str now) := by
  unfold buildAdvRow
  by_cases h : is_num p.home_pts = true ∧ is_num p.away_pts = true
  · rw [if_neg (by
      simp only [not_or, not_not]
      exact ⟨h.1, h.2⟩), if_pos h, if_pos h]
    exact ⟨rfl, rfl, rfl, rfl, rfl, rfl, rfl, rfl, rfl, rfl⟩
  · rw [if_pos (by
      rcases Decidable.not_and_iff_or_not.mp h with h1 | h1
      · exact Or.inl h1
      · exact Or.inr h1), if_neg h, if_neg h]
    exact ⟨rfl, rfl, rfl, rfl, rfl, rfl, rfl, rfl, rfl, rfl⟩

/-! ### C4: missing-points status; Poss Avg depends only on possessions -/

/-- C4 (amended): on a successfully built row, Status is `OK` exactly when
both points cells are numeric, a non-numeric points cell forces Status
`"ERR: missing points"` with an empty Total Pts — but Poss Avg is empty if
and only if a possession cell is non-numeric, independently of the points. -/
theorem C4_missing_points (gid : PyStr) (hint : Option PyDateTime)
    (key : PyStr) (trad adv : NbaResp) (now : PyStr) (row : List JVal)
    (hp ap hposs aposs : JVal)
    (h : fetch_adv_row gid hint key trad adv now = .ok row)
    (h5 : row.get? 5 = some hp) (h6 : row.get? 6 = some ap)
    (h8 : row.get? 8 = some hposs) (h9 : row.get? 9 = some aposs) :
    (¬ (is_num hp = true ∧ is_num ap = true) →
      row.get? 25 = some (.str (S r"ERR: missing points")) ∧
        row.get? 7 = some (.str [])) ∧
    ((is_num hp = true ∧ is_num ap = true) →
      row.get? 25 = some (.str (S r"OK"))) ∧
    (row.get? 10 = some (.str []) ↔ ¬ (is_num hposs = true ∧ is_num aposs = true)) := by
  obtain ⟨p, _, hrow⟩ := fetch_adv_row_ok_decomp gid hint key trad adv now row h
  subst hrow
  obtain ⟨-, -, c5, c6, c7, c8, c9, c10, c25, -⟩ := buildAdvRow_cells gid hint key now p
  rw [c5] at h5
  rw [c6] at h6
  rw [c8] at h8
  rw [c9] at h9
  have ehp : hp = p.home_pts := (Option.some.inj h5).symm
  have eap : ap = p.away_pts := (Option.some.inj h6).symm
  have ehposs : hposs = p.home_poss := (Option.some.inj h8).symm
  have eaposs : aposs = p.away_poss := (Option.some.inj h9).symm
  subst ehp
  subst eap
  subst ehposs
  subst eaposs
  refine ⟨?_, ?_, ?_⟩
  · intro hn
    rw [c25, c7, if_neg hn, if_neg hn]
    exact ⟨rfl, rfl⟩
  · intro hy
    rw [c25, if_pos hy]
  · rw [c10]
    by_cases hq : is_num p.home_poss = true ∧ is_num p.away_poss = true
    · rw [if_pos hq]
      simp only [iff_iff_implies_and_implies]
      constructor
      · intro hc
        exact absurd (Option.some.inj hc) (by intro hx; cases hx)
      · intro hc
        exact absurd hq hc
    · rw [if_neg hq]
      simp [hq]

unseal Rat.add Rat.mul Rat.inv in
/-- Counterexample refuting C4 as stated: with a non-numeric home-points
cell but numeric possessions, the built row has Status
`"ERR: missing points"` and an empty Total Pts, yet Poss Avg is the numeric
average `100`, not empty. -/
theorem C4_missing_points_counterexample :
    ∃ row,
      fetch_adv_row (S r"G1") none []
          ⟨some [⟨S r"TeamStats", some [.str (S r"PTS")],
            some [[.str (S r"abc")], [.int 100]]⟩]⟩
          ⟨some [⟨S r"TeamStats", some [.str (S r"POSS")],
            some [[.int 99], [.int 101]]⟩]⟩
          (S r"T") = .ok row ∧
        row.get? 5 = some (.str (S r"abc")) ∧
        is_num (.str (S r"abc")) = false ∧
        row.get? 25 = some (.str (S r"ERR: missing points")) ∧
        row.get? 7 = some (.str []) ∧
        row.get? 10 = some (.num 100) ∧
        ¬ row.get? 10 = some (.str []) := by
  refine ⟨_, rfl, by decide, by decide, by decide, by decide, by decide, by decide⟩

unseal Rat.add Rat.mul Rat.inv in
/-- Witness for the amended C4 at a concrete successful build. -/
theorem C4_missing_points_witness :
    ([(JVal.str []), .str [], .str (S r"G1"), .str [], .str [],
      .str (S r"abc"), .int 100, .str [], .int 99, .int 101,
      .num 100, .str [], .str [], .str [], .str [],
      .str [], .str [], .str [], .str [], .str [],
      .str [], .str [], .str [], .str [], .str [],
      .str (S r"ERR: missing points"), .str (S r"T")].get? 25 =
        some (.str (S r"ERR: missing points")) ∧
      [(JVal.str []), .str [], .str (S r"G1"), .str [], .str [],
       .str (S r"abc"), .int 100, .str [], .int 99, .int 101,
       .num 100, .str [], .str [], .str [], .str [],
       .str [], .str [], .str [], .str [], .str [],
       .str [], .str [], .str [], .str [], .str [],
       .str (S r"ERR: missing points"), .str (S r"T")].get? 7 = some (.str [])) ∧
    ([(JVal.str []), .str [], .str (S r"G1"), .str [], .str [],
      .str (S r"abc"), .int 100, .str [], .int 99, .int 101,
      .num 100, .str [], .str [], .str [], .str [],
      .str [], .str [], .str [], .str [], .str [],
      .str [], .str [], .str [], .str [], .str [],
      .str (S r"ERR: missing points"), .str (S r"T")].get? 10 = some (.str []) ↔
      ¬ (is_num (JVal.int 99) = true ∧ is_num (JVal.int 101) = true)) := by
  have hrow : fetch_adv_row (S r"G1") none []
      ⟨some [⟨S r"TeamStats", some [.str (S r"PTS")],
        some [[.str (S r"abc")], [.int 100]]⟩]⟩
      ⟨some [⟨S r"TeamStats", some [.str (S r"POSS")],
        some [[.int 99], [.int 101]]⟩]⟩
      (S r"T") =
        .ok [(JVal.str []), .str [], .str (S r"G1"), .str [], .str [],
          .str (S r"abc"), .int 100, .str [], .int 99, .int 101,
          .num 100, .str [], .str [], .str [], .str [],
          .str [], .str [], .str [], .str [], .str [],
          .str [], .str [], .str [], .str [], .str [],
          .str (S r"ERR: missing points"), .str (S r"T")] := by decide
  have h := C4_missing_points (S r"G1") none [] _ _ (S r"T") _
    (.str (S r"abc")) (.int 100) (.int 99) (.int 101) hrow
    (by decide) (by decide) (by decide) (by decide)
  exact ⟨h.1 (by decide), h.2.2⟩

/-! ### Association-list and index-scan lemmas -/

theorem dget_cons {α : Type} (k : PyStr) (v : α) (l : List (PyStr × α)) (g : PyStr) :
    dget ((k, v) :: l) g =
      match dget l g with
      | some x => some x
      | none => if k = g then some v else none := by
  unfold dget
  by_cases hk : k = g
  · rw [List.filter_cons, if_pos (by simpa using hk)]
    cases hfl : (l.filter (fun p => decide (p.1 = g))) with
    | nil => simp [hk]
    | cons a as =>
      rw [List.getLast?_cons_cons]
      cases hgl : (a :: as).getLast? with
      | none => simp at hgl
      | some x => simp
  · rw [List.filter_cons, if_neg (by simpa using hk)]
    cases hd : (l.filter (fun p => decide (p.1 = g))).getLast? with
    | none => simp [hk]
    | some x => simp

theorem advIndexScan_row_some (gi si ki : Nat) :
    ∀ (rows : List (List JVal)) (rn : Nat) (g : PyStr) (n : Nat),
      dget (advIndexScan gi si ki rn rows).gid_to_row g = some n →
      ∃ j r, rows.get? j = some r ∧ n = rn + j ∧ extractGid gi r = g ∧ g ≠ [] := by
  intro rows
  induction rows with
  | nil => intro rn g n h; exact absurd h (by simp [advIndexScan, dget])
  | cons r0 rest ih =>
    intro rn g n h
    unfold advIndexScan at h
    by_cases hg : extractGid gi r0 = []
    · rw [if_pos hg] at h
      obtain ⟨j, r, hj, hn, he, hne⟩ := ih (rn + 1) g n h
      exact ⟨j + 1, r, by simpa using hj, by omega, he, hne⟩
    · rw [if_neg hg] at h
      simp only at h
      rw [dget_cons] at h
      cases hdt : dget (advIndexScan gi si ki (rn + 1) rest).gid_to_row g with
      | some n2 =>
        rw [hdt] at h
        have h2 : n2 = n := Option.some.inj (show some n2 = some n from h)
        obtain ⟨j, r, hj, hn, he, hne⟩ := ih (rn + 1) g n2 hdt
        exact ⟨j + 1, r, by simpa using hj, by omega, he, hne⟩
      | none =>
        rw [hdt] at h
        have h2 : (if extractGid gi r0 = g then some rn else none) = some n := h
        by_cases hkg : extractGid gi r0 = g
        · rw [if_pos hkg] at h2
          have hn := Option.some.inj h2
          refine ⟨0, r0, rfl, by omega, hkg, ?_⟩
          rw [← hkg]
          exact hg
        · rw [if_neg hkg] at h2
          exact absurd h2 (by simp)

theorem advIndexScan_row_none (gi si ki : Nat) :
    ∀ (rows : List (List JVal)) (rn : Nat) (g : PyStr),
      g ≠ [] →
      dget (advIndexScan gi si ki rn rows).gid_to_row g = none →
      ∀ j r, rows.get? j = some r → extractGid gi r ≠ g := by
  intro rows
  induction rows with
  | nil => intro rn g hg h j r hj; exact absurd hj (by simp)
  | cons r0 rest ih =>
    intro rn g hg h j r hj
    unfold advIndexScan at h
    by_cases hg0 : extractGid gi r0 = []
    · rw [if_pos hg0] at h
      match j, hj with
      | 0, hj =>
        have : r0 = r := by simpa using hj
        rw [← this, hg0]
        exact fun hc => hg hc.symm
      | j' + 1, hj => exact ih (rn + 1) g hg h j' r (by simpa using hj)
    · rw [if_neg hg0] at h
      simp only at h
      rw [dget_cons] at h
      cases hdt : dget (advIndexScan gi si ki (rn + 1) rest).gid_to_row g with
      | some n2 =>
        rw [hdt] at h
        exact absurd (show some n2 = none from h) (by simp)
      | none =>
        rw [hdt] at h
        have h2 : (if extractGid gi r0 = g then some rn else none) = none := h
        by_cases hkg : extractGid gi r0 = g
        · rw [if_pos hkg] at h2
          exact absurd h2 (by simp)
        · match j, hj with
          | 0, hj =>
            have : r0 = r := by simpa using hj
            rw [← this]
            exact hkg
          | j' + 1, hj => exact ih (rn + 1) g hg hdt j' r (by simpa using hj)

theorem advIndexScan_status_some (gi si ki : Nat) :
    ∀ (rows : List (List JVal)) (rn : Nat) (g stv : PyStr),
      dget (advIndexScan gi si ki rn rows).gid_to_status g = some stv →
      (∃ r ∈ rows, si < r.length ∧
        stv = pyUpper (pyStrip (pyStrOfVal (r.getD si JVal.null)))) ∨ stv = [] := by
  intro rows
  induction rows with
  | nil => intro rn g stv h; exact absurd h (by simp [advIndexScan, dget])
  | cons r0 rest ih =>
    intro rn g stv h
    unfold advIndexScan at h
    by_cases hg : extractGid gi r0 = []
    · rw [if_pos hg] at h
      rcases ih (rn + 1) g stv h with ⟨r, hr, hl, he⟩ | he
      · exact Or.inl ⟨r, List.mem_cons_of_mem _ hr, hl, he⟩
      · exact Or.inr he
    · rw [if_neg hg] at h
      simp only at h
      rw [dget_cons] at h
      cases hdt : dget (advIndexScan gi si ki (rn + 1) rest).gid_to_status g with
      | some stv2 =>
        rw [hdt] at h
        have h2 : stv2 = stv := Option.some.inj (show some stv2 = some stv from h)
        rcases ih (rn + 1) g stv2 hdt with ⟨r, hr, hl, he⟩ | he
        · exact Or.inl ⟨r, List.mem_cons_of_mem _ hr, hl, by rw [← h2, he]⟩
        · exact Or.inr (by rw [← h2, he])
      | none =>
        rw [hdt] at h
        have h2 : (if extractGid gi r0 = g then
            some (if si < r0.length then
              pyUpper (pyStrip (pyStrOfVal (r0.getD si JVal.null))) else [])
          else none) = some stv := h
        by_cases hkg : extractGid gi r0 = g
        · rw [if_pos hkg] at h2
          have h3 := Option.some.inj h2
          by_cases hsl : si < r0.length
          · refine Or.inl ⟨r0, List.mem_cons_self _ _, hsl, ?_⟩
            rw [← h3, if_pos hsl]
          · refine Or.inr ?_
            rw [← h3, if_neg hsl]
        · rw [if_neg hkg] at h2
          exact absurd h2 (by simp)

/-! ### C10: status comparison is case-insensitive; written statuses -/

/-- C10: every status stored in the loaded ADV index is the stripped,
upper-cased cell text (so the `== "OK"` skip test is case-insensitive:
stored `" ok "` or `"Ok"` behave like `"OK"`, as the concrete equalities
show), any candidate whose indexed status is `OK` is skipped, and the rows
this system itself writes carry exactly `"OK"` or an `"ERR: ..."` string. -/
theorem C10_status_normalization :
    (∀ gi si ki rows rn g stv,
      dget (advIndexScan gi si ki rn rows).gid_to_status g = some stv →
      (∃ r ∈ rows, si < r.length ∧
        stv = pyUpper (pyStrip (pyStrOfVal (r.getD si JVal.null)))) ∨ stv = []) ∧
    (∀ idx b now st g d,
      truthyRowNum (dget idx.gid_to_row g) = true →
      dgetD idx.gid_to_status g [] = S r"OK" →
      walkStep idx b now st (g, d) = st) ∧
    pyUpper (pyStrip (S r" ok ")) = S r"OK" ∧
    pyUpper (pyStrip (S r"Ok")) = S r"OK" ∧
    (∀ gid hint key trad adv now row,
      fetch_adv_row gid hint key trad adv now = .ok row →
      row.get? 25 = some (.str (S r"OK")) ∨
        row.get? 25 = some (.str (S r"ERR: missing points"))) ∧
    (∀ g e now, (errRow g e now).get? 25 =
      some (.str (S r"ERR: " ++ e.take 160))) := by
  refine ⟨?_, ?_, by decide, by decide, ?_, ?_⟩
  · intro gi si ki rows rn g stv h
    exact advIndexScan_status_some gi si ki rows rn g stv h
  · intro idx b now st g d htr hok
    unfold walkStep
    rw [if_pos ⟨htr, hok⟩]
  · intro gid hint key trad adv now row h
    obtain ⟨p, _, hrow⟩ := fetch_adv_row_ok_decomp gid hint key trad adv now row h
    subst hrow
    obtain ⟨-, -, -, -, -, -, -, -, c25, -⟩ := buildAdvRow_cells gid hint key now p
    rw [c25]
    by_cases hq : is_num p.home_pts = true ∧ is_num p.away_pts = true
    · rw [if_pos hq]
      exact Or.inl rfl
    · rw [if_neg hq]
      exact Or.inr rfl
  · intro g e now
    rfl

/-- Witness for C10 at a concrete index: the stored status of a row whose
Status cell reads `" ok "` is `"OK"`, and such a candidate is skipped. -/
theorem C10_status_normalization_witness :
    ((∃ r ∈ [[JVal.str (S r"G1"), .str (S r" ok ")]], (1 : Nat) < r.length ∧
        S r"OK" = pyUpper (pyStrip (pyStrOfVal (r.getD 1 JVal.null)))) ∨
      S r"OK" = ([] : PyStr)) ∧
    walkStep ⟨[(S r"G1", 2)], [(S r"G1", S r"OK")], []⟩
        (fun g _ _ => .ok [.str g]) (S r"T") ⟨0, [], []⟩
        (S r"G1", ⟨2024, 5, 1, 0, 0, 0⟩) = ⟨0, [], []⟩ ∧
    (errRow (S r"G1") (S r"boom") (S r"T")).get? 25 =
      some (.str (S r"ERR: " ++ (S r"boom").take 160)) := by
  refine ⟨?_, ?_, ?_⟩
  · exact C10_status_normalization.1 0 1 0 [[JVal.str (S r"G1"), .str (S r" ok ")]] 2
      (S r"G1") (S r"OK") (by decide)
  · exact C10_status_normalization.2.1 ⟨[(S r"G1", 2)], [(S r"G1", S r"OK")], []⟩
      (fun g _ _ => .ok [.str g]) (S r"T") ⟨0, [], []⟩ (S r"G1")
      ⟨2024, 5, 1, 0, 0, 0⟩ (by decide) (by decide)
  · exact C10_status_normalization.2.2.2.2.2 (S r"G1") (S r"boom") (S r"T")

/-! ### C6: retry loop of the resilient fetcher -/

theorem nbaFetchGo_success {α : Type} (att : Nat → AttRes α) (sb : ℚ)
    (jit : Nat → ℚ) (mt : Nat) (m : Nat → PyStr) (v : α) :
    ∀ k remaining i lastErr sleeps, k < remaining →
      (∀ j, j < k → attOutcome (att (i + j)) = .error (m (i + j))) →
      attOutcome (att (i + k)) = .ok v →
      nbaFetchGo att sb jit mt remaining i lastErr sleeps =
        ⟨.ok v, i + k + 1,
         sleeps ++ (List.range' i k).map (fun j => sb * (mkRat 8 5) ^ j + jit j)⟩ := by
  intro k
  induction k with
  | zero =>
    intro remaining i lastErr sleeps hk hfail hok
    match remaining, hk with
    | r + 1, _ =>
      unfold nbaFetchGo
      rw [show i + 0 = i from rfl] at hok
      rw [hok]
      simp [List.range']
  | succ k ih =>
    intro remaining i lastErr sleeps hk hfail hok
    match remaining, hk with
    | r + 1, _ =>
      unfold nbaFetchGo
      have h0 : attOutcome (att i) = .error (m i) := by
        have := hfail 0 (by omega)
        simpa using this
      rw [h0]
      show nbaFetchGo att sb jit mt r (i + 1) (some (m i))
          (sleeps ++ [sb * mkRat 8 5 ^ i + jit i]) = _
      have hfail2 : ∀ j, j < k → attOutcome (att (i + 1 + j)) = .error (m (i + 1 + j)) := by
        intro j hj
        have := hfail (j + 1) (by omega)
        rw [show i + (j + 1) = i + 1 + j by omega] at this
        exact this
      have hok2 : attOutcome (att (i + 1 + k)) = .ok v := by
        rw [show i + 1 + k = i + (k + 1) by omega]
        exact hok
      rw [ih r (i + 1) (some (m i)) (sleeps ++ [sb * mkRat 8 5 ^ i + jit i])
        (by omega) hfail2 hok2]
      rw [List.range'_succ]
      simp only [List.map_cons]
      rw [List.append_assoc]
      have : i + 1 + k + 1 = i + (k + 1) + 1 := by omega
      rw [this]
      rfl

theorem nbaFetchGo_allfail {α : Type} (att : Nat → AttRes α) (sb : ℚ)
    (jit : Nat → ℚ) (mt : Nat) (m : Nat → PyStr) :
    ∀ remaining i lastErr sleeps, 0 < remaining →
      (∀ j, j < remaining → attOutcome (att (i + j)) = .error (m (i + j))) →
      nbaFetchGo att sb jit mt remaining i lastErr sleeps =
        ⟨.error (S r"NBA fetch failed after " ++ natStr mt ++ S r" tries: " ++
            m (i + remaining - 1)),
         i + remaining,
         sleeps ++ (List.range' i remaining).map
           (fun j => sb * (mkRat 8 5) ^ j + jit j)⟩ := by
  intro remaining
  induction remaining with
  | zero => intro i lastErr sleeps h0; omega
  | succ r ih =>
    intro i lastErr sleeps h0 hfail
    unfold nbaFetchGo
    have hf0 : attOutcome (att i) = .error (m i) := by
      have := hfail 0 (by omega)
      simpa using this
    rw [hf0]
    show nbaFetchGo att sb jit mt r (i + 1) (some (m i))
        (sleeps ++ [sb * mkRat 8 5 ^ i + jit i]) = _
    match r with
    | 0 =>
      unfold nbaFetchGo
      simp [List.range']
    | r' + 1 =>
      have hfail2 : ∀ j, j < r' + 1 → attOutcome (att (i + 1 + j)) = .error (m (i + 1 + j)) := by
        intro j hj
        have := hfail (j + 1) (by omega)
        rw [show i + (j + 1) = i + 1 + j by omega] at this
        exact this
      rw [ih (i + 1) (some (m i)) (sleeps ++ [sb * mkRat 8 5 ^ i + jit i])
        (by omega) hfail2]
      have h1 : i + 1 + (r' + 1) - 1 = i + (r' + 1 + 1) - 1 := by omega
      have h2 : i + 1 + (r' + 1) = i + (r' + 1 + 1) := by omega
      rw [h1, h2]
      simp only [List.range'_succ, List.map_cons, List.append_assoc,
        List.cons_append, List.singleton_append, List.nil_append]

theorem nbaFetchGo_tries_le {α : Type} (att : Nat → AttRes α) (sb : ℚ)
    (jit : Nat → ℚ) (mt : Nat) :
    ∀ remaining i lastErr sleeps,
      (nbaFetchGo att sb jit mt remaining i lastErr sleeps).tries ≤ i + remaining := by
  intro remaining
  induction remaining with
  | zero => intro i lastErr sleeps; simp [nbaFetchGo]
  | succ r ih =>
    intro i lastErr sleeps
    unfold nbaFetchGo
    cases attOutcome (att i) with
    | ok v =>
      simp
    | error m =>
      simp only
      have := ih (i + 1) (some m) (sleeps ++ [sb * mkRat 8 5 ^ i + jit i])
      omega

/-- C6 (amended): the fetcher returns the parsed body of the first attempt
that yields HTTP 200 *with a parseable JSON body*, making at most `maxTries`
attempts; when every attempt fails — network exception, non-200 status, *or*
a 200 response whose body fails to parse — it raises an error carrying the
last observed failure text, and after the `i`-th failed attempt it sleeps
`SLEEP_BASE * 1.6^i` plus the drawn jitter. -/
theorem C6_fetch_retry {α : Type} (att : Nat → AttRes α) (maxTries : Nat)
    (sb : ℚ) (jit : Nat → ℚ) (m : Nat → PyStr) (v : α) (k : Nat) :
    (k < maxTries →
      (∀ j, j < k → attOutcome (att j) = .error (m j)) →
      attOutcome (att k) = .ok v →
      nba_fetch att maxTries sb jit =
        ⟨.ok v, k + 1,
         (List.range k).map (fun j => sb * (mkRat 8 5) ^ j + jit j)⟩) ∧
    (0 < maxTries →
      (∀ j, j < maxTries → attOutcome (att j) = .error (m j)) →
      nba_fetch att maxTries sb jit =
        ⟨.error (S r"NBA fetch failed after " ++ natStr maxTries ++
            S r" tries: " ++ m (maxTries - 1)),
         maxTries,
         (List.range maxTries).map (fun j => sb * (mkRat 8 5) ^ j + jit j)⟩) ∧
    (nba_fetch att maxTries sb jit).tries ≤ maxTries := by
  refine ⟨?_, ?_, ?_⟩
  · intro hk hfail hok
    unfold nba_fetch
    rw [nbaFetchGo_success att sb jit maxTries m v k maxTries 0 none [] hk
      (by simpa using hfail) (by simpa using hok)]
    rw [List.range_eq_range']
    simp
  · intro h0 hfail
    unfold nba_fetch
    rw [nbaFetchGo_allfail att sb jit maxTries m maxTries 0 none [] h0
      (by simpa using hfail)]
    rw [List.range_eq_range']
    simp
  · have := nbaFetchGo_tries_le att sb jit maxTries maxTries 0 none []
    simpa [nba_fetch] using this

/-- Counterexample refuting C6 as stated: every one of the `MAX_TRIES`
attempts yields HTTP 200 (so, per the claim, the attempts did not all
"fail (network exception or non-200 status)") — yet because every 200 body
fails to parse, the fetcher returns no parsed body and raises. -/
theorem C6_fetch_retry_counterexample :
    (∀ i, i < MAX_TRIES →
      (fun (_ : Nat) => AttRes.resp 200 (S r"<html>")
        (Except.error (S r"Expecting value: line 1 column 1") :
          Except PyStr Nat)) i =
        AttRes.resp 200 (S r"<html>")
          (Except.error (S r"Expecting value: line 1 column 1"))) ∧
    (nba_fetch (fun _ => AttRes.resp 200 (S r"<html>")
        (Except.error (S r"Expecting value: line 1 column 1") : Except PyStr Nat))
        MAX_TRIES SLEEP_BASE (fun _ => 0)).result =
      .error (S r"NBA fetch failed after 8 tries: Expecting value: line 1 column 1") := by
  constructor
  · intro i _
    rfl
  · decide

unseal Rat.add Rat.mul Rat.inv in
/-- Witness for the amended C6: a timeout then a clean 200 succeed on the
second attempt with one backoff sleep; and eight failures raise carrying the
last failure. -/
theorem C6_fetch_retry_witness :
    nba_fetch (fun i => if i = 0 then AttRes.exc (S r"timeout")
        else AttRes.resp 200 (S r"x") (Except.ok (42 : Nat))) 8 SLEEP_BASE
        (fun _ => 0) =
      ⟨.ok 42, 2, (List.range 1).map
        (fun j => SLEEP_BASE * (mkRat 8 5) ^ j + (fun _ => (0 : ℚ)) j)⟩ ∧
    nba_fetch (fun _ => (AttRes.exc (S r"timeout") : AttRes Nat)) 8 SLEEP_BASE
        (fun _ => 0) =
      ⟨.error (S r"NBA fetch failed after " ++ natStr 8 ++ S r" tries: " ++
          (fun _ => S r"timeout") (8 - 1)), 8,
        (List.range 8).map
          (fun j => SLEEP_BASE * (mkRat 8 5) ^ j + (fun _ => (0 : ℚ)) j)⟩ := by
  constructor
  · exact (C6_fetch_retry (fun i => if i = 0 then AttRes.exc (S r"timeout")
      else AttRes.resp 200 (S r"x") (Except.ok (42 : Nat))) 8 SLEEP_BASE
      (fun _ => 0) (fun _ => S r"timeout") 42 1).1 (by decide)
      (by
        intro j hj
        interval_cases j
        rfl)
      (by rfl)
  · exact (C6_fetch_retry (fun _ => (AttRes.exc (S r"timeout") : AttRes Nat)) 8
      SLEEP_BASE (fun _ => 0) (fun _ => S r"timeout") 0 0).2.1 (by decide)
      (fun j _ => rfl)

/-! ### C7: the lookback filter -/

theorem mem_enumFrom_iff {α : Type} :
    ∀ (rows : List α) (rn : Nat) (p : Nat × α),
      p ∈ List.enumFrom rn rows ↔ ∃ j, rows.get? j = some p.2 ∧ p.1 = rn + j := by
  intro rows
  induction rows with
  | nil => intro rn p; simp
  | cons r rest ih =>
    intro rn p
    constructor
    · intro hp
      rcases List.mem_cons.mp hp with hp | hp
      · refine ⟨0, ?_, ?_⟩ <;> simp [hp]
      · obtain ⟨j, hj, hn⟩ := (ih (rn + 1) p).mp hp
        exact ⟨j + 1, by simpa using hj, by omega⟩
    · rintro ⟨j, hj, hn⟩
      match j, hj, hn with
      | 0, hj, hn =>
        have : r = p.2 := by simpa using hj
        have hp : p = (rn, r) := by
          cases p
          simp_all
        rw [hp]
        exact List.mem_cons_self _ _
      | j' + 1, hj, hn =>
        refine List.mem_cons_of_mem _ ((ih (rn + 1) p).mpr ⟨j', by simpa using hj, by omega⟩)

theorem completedScan_cons (col : PyStr → Option Nat) (ck : ℤ) (rn : Nat)
    (infos : List (PyStr × CGInfo)) (r : List JVal) (rest : List (List JVal)) :
    completedScan col ck rn infos (r :: rest) =
      match parse_sheet_date (getvCell col r (S r"Game Date")) with
      | none => completedScan col ck (rn + 1) infos rest
      | some t =>
        if pyStrip (strOrEmpty (getvCell col r (S r"ESPN Game ID"))) = [] then
          completedScan col ck (rn + 1) infos rest
        else if dtKey t < ck then completedScan col ck (rn + 1) infos rest
        else
          let infos2 :=
            if (dget infos (pyStrip (strOrEmpty (getvCell col r (S r"ESPN Game ID"))))).isNone ∧
                pyLower (pyStrip (strOrEmpty (getvCell col r (S r"HomeAway")))) = S r"home" then
              infos ++ [(pyStrip (strOrEmpty (getvCell col r (S r"ESPN Game ID"))),
                ⟨t, pyStrOfVal (getvCell col r (S r"Team")),
                  pyStrOfVal (getvCell col r (S r"Opponent"))⟩)]
            else infos
          let res := completedScan col ck (rn + 1) infos2 rest
          (res.1, ⟨rn, pyStrip (strOrEmpty (getvCell col r (S r"ESPN Game ID"))),
            pyStrip (strOrEmpty (getvCell col r (S r"NBA Game ID")))⟩ :: res.2) := rfl

theorem completedScan_refs (col : PyStr → Option Nat) (ck : ℤ) :
    ∀ (rows : List (List JVal)) (rn : Nat) (infos : List (PyStr × CGInfo)),
      (completedScan col ck rn infos rows).2 =
        (List.enumFrom rn rows).filterMap (fun p =>
          if keptRow col ck p.2 then
            some ⟨p.1, pyStrip (strOrEmpty (getvCell col p.2 (S r"ESPN Game ID"))),
              pyStrip (strOrEmpty (getvCell col p.2 (S r"NBA Game ID")))⟩
          else none) := by
  intro rows
  induction rows with
  | nil => intro rn infos; rfl
  | cons r rest ih =>
    intro rn infos
    rw [completedScan_cons]
    rw [show List.enumFrom rn (r :: rest) = (rn, r) :: List.enumFrom (rn + 1) rest from rfl]
    rw [List.filterMap_cons]
    cases hp : parse_sheet_date (getvCell col r (S r"Game Date")) with
    | none =>
      simp only [keptRow, hp]
      rw [if_neg (by simp)]
      exact ih (rn + 1) infos
    | some t =>
      by_cases he : pyStrip (strOrEmpty (getvCell col r (S r"ESPN Game ID"))) = []
      · simp only [keptRow, hp]
        rw [if_pos he, if_pos he, if_neg (by simp)]
        exact ih (rn + 1) infos
      · by_cases hc : dtKey t < ck
        · simp only [keptRow, hp]
          rw [if_neg he, if_neg he, if_pos hc, if_pos hc, if_neg (by simp)]
          exact ih (rn + 1) infos
        · simp only [keptRow, hp]
          rw [if_neg he, if_neg he, if_neg hc, if_neg hc]
          rw [if_pos rfl]
          simp only
          rw [ih (rn + 1) _]
          rfl

theorem keptRow_iff (col : PyStr → Option Nat) (ck : ℤ) (r : List JVal) :
    keptRow col ck r = true ↔
      pyStrip (strOrEmpty (getvCell col r (S r"ESPN Game ID"))) ≠ [] ∧
        ∃ t, parse_sheet_date (getvCell col r (S r"Game Date")) = some t ∧
          ¬ dtKey t < ck := by
  unfold keptRow
  cases hp : parse_sheet_date (getvCell col r (S r"Game Date")) with
  | none => simp
  | some t =>
    by_cases he : pyStrip (strOrEmpty (getvCell col r (S r"ESPN Game ID"))) = []
    · simp [he]
    · by_cases hc : dtKey t < ck
      · simp [he, hc]
      · show ((if pyStrip (strOrEmpty (getvCell col r (S r"ESPN Game ID"))) = []
            then false else if dtKey t < ck then false else true) = true) ↔ _
        rw [if_neg he, if_neg hc]
        constructor
        · intro _
          exact ⟨he, t, rfl, hc⟩
        · intro _
          rfl

/-- C7 (amended): a completed-games row contributes to the run's working set
(appears in `row_refs`, keyed by its sheet row number) if and only if its
ESPN Game ID is non-empty, its Game Date parses, and the parsed date is not
earlier than `now - LOOKBACK_DAYS`; there is **no upper bound**, so
future-dated rows are also kept, and rows failing the test are skipped
silently while the load still succeeds. -/
theorem C7_lookback_filter (hrow : List JVal) (dataRows : List (List JVal))
    (now : PyDateTime) (lb : Nat) (hne : hrow ≠ []) :
    ∃ ci, read_completed_index (hrow :: dataRows) now lb = .ok ci ∧
      (∀ j r, dataRows.get? j = some r →
        ((∃ ref ∈ ci.row_refs, ref.rownum = j + 2) ↔
          (pyStrip (strOrEmpty (getvCell
              (hdrMap (ensure_headers_names hrow COMPLETED_EXPECTED)) r
              (S r"ESPN Game ID"))) ≠ [] ∧
            ∃ t, parse_sheet_date (getvCell
                (hdrMap (ensure_headers_names hrow COMPLETED_EXPECTED)) r
                (S r"Game Date")) = some t ∧
              ¬ dtKey t < dtKey now - (lb : ℤ) * 86400))) := by
  refine ⟨⟨ensure_headers_names hrow COMPLETED_EXPECTED,
    (completedScan (hdrMap (ensure_headers_names hrow COMPLETED_EXPECTED))
      (dtKey now - (lb : ℤ) * 86400) 2 [] dataRows).1,
    (completedScan (hdrMap (ensure_headers_names hrow COMPLETED_EXPECTED))
      (dtKey now - (lb : ℤ) * 86400) 2 [] dataRows).2⟩, ?_, ?_⟩
  · rw [show read_completed_index (hrow :: dataRows) now lb =
        (if hrow.isEmpty = true then
          Except.error (S r"NBA_COMPLETED_GAMES missing header row")
        else Except.ok ⟨ensure_headers_names hrow COMPLETED_EXPECTED,
          (completedScan (hdrMap (ensure_headers_names hrow COMPLETED_EXPECTED))
            (dtKey now - (lb : ℤ) * 86400) 2 [] dataRows).1,
          (completedScan (hdrMap (ensure_headers_names hrow COMPLETED_EXPECTED))
            (dtKey now - (lb : ℤ) * 86400) 2 [] dataRows).2⟩) from rfl]
    rw [if_neg (by simpa using hne)]
  · intro j r hj
    set col := hdrMap (ensure_headers_names hrow COMPLETED_EXPECTED) with hcol
    set ck := dtKey now - (lb : ℤ) * 86400 with hck
    rw [← keptRow_iff col ck r]
    simp only [completedScan_refs col ck dataRows 2 []]
    constructor
    · rintro ⟨ref, href, hrn⟩
      obtain ⟨⟨n, r2⟩, hmem, hf⟩ := List.mem_filterMap.mp href
      obtain ⟨j2, hj2, hn⟩ := (mem_enumFrom_iff dataRows 2 (n, r2)).mp hmem
      by_cases hk : keptRow col ck r2 = true
      · rw [if_pos hk] at hf
        have hrefn : ref.rownum = n := by
          rw [← Option.some.inj hf]
        have : j2 = j := by omega
        subst this
        have : r2 = r := by
          rw [hj] at hj2
          exact (Option.some.inj hj2).symm
        rw [← this]
        exact hk
      · rw [if_neg hk] at hf
        exact absurd hf (by simp)
    · intro hk
      refine ⟨⟨j + 2, pyStrip (strOrEmpty (getvCell col r (S r"ESPN Game ID"))),
        pyStrip (strOrEmpty (getvCell col r (S r"NBA Game ID")))⟩, ?_, rfl⟩
      refine List.mem_filterMap.mpr ⟨(j + 2, r), ?_, ?_⟩
      · exact (mem_enumFrom_iff dataRows 2 (j + 2, r)).mpr ⟨j, hj, by omega⟩
      · rw [if_pos hk]

/-- Counterexample refuting C7 as stated: a row dated 2030-12-31 — outside
the claimed window `(today − N days, today]` for `now` = 2026-10-12 — is
*not* skipped: it contributes a row reference, because the code only checks
the lower bound. -/
theorem C7_lookback_counterexample :
    ∃ ci, read_completed_index
        [COMPLETED_EXPECTED.map JVal.str,
         [.str (S r"Lakers"), .str (S r"Celtics"), .str (S r"home"),
          .str (S r"12/31/2030"), .str (S r"401580001"), .str [], .str [],
          .str []]]
        ⟨2026, 10, 12, 0, 0, 0⟩ LOOKBACK_DAYS = .ok ci ∧
      (∃ ref ∈ ci.row_refs, ref.rownum = 2 ∧ ref.espn_id = S r"401580001") ∧
      parse_sheet_date (.str (S r"12/31/2030")) = some ⟨2030, 12, 31, 0, 0, 0⟩ ∧
      dtKey (⟨2026, 10, 12, 0, 0, 0⟩ : PyDateTime) <
        dtKey (⟨2030, 12, 31, 0, 0, 0⟩ : PyDateTime) := by
  refine ⟨_, rfl, ⟨⟨2, S r"401580001", []⟩, by decide, by decide, by decide⟩,
    by decide, by decide⟩

/-- Witness for the amended C7 at a concrete table: the 2030 row is kept
(per the amended filter), an unparseable row is not. -/
theorem C7_lookback_filter_witness :
    ∃ ci, read_completed_index
        [COMPLETED_EXPECTED.map JVal.str,
         [.str (S r"Lakers"), .str (S r"Celtics"), .str (S r"home"),
          .str (S r"12/31/2030"), .str (S r"401580001"), .str [], .str [],
          .str []],
         [.str (S r"Lakers"), .str (S r"Celtics"), .str (S r"home"),
          .str (S r"not a date"), .str (S r"401580002"), .str [], .str [],
          .str []]]
        ⟨2026, 10, 12, 0, 0, 0⟩ LOOKBACK_DAYS = .ok ci ∧
      (∃ ref ∈ ci.row_refs, ref.rownum = 0 + 2) ∧
      ¬ ∃ ref ∈ ci.row_refs, ref.rownum = 1 + 2 := by
  obtain ⟨ci, hci, hiff⟩ := C7_lookback_filter (COMPLETED_EXPECTED.map JVal.str)
    [[.str (S r"Lakers"), .str (S r"Celtics"), .str (S r"home"),
      .str (S r"12/31/2030"), .str (S r"401580001"), .str [], .str [], .str []],
     [.str (S r"Lakers"), .str (S r"Celtics"), .str (S r"home"),
      .str (S r"not a date"), .str (S r"401580002"), .str [], .str [], .str []]]
    ⟨2026, 10, 12, 0, 0, 0⟩ LOOKBACK_DAYS (by decide)
  refine ⟨ci, hci, ?_, ?_⟩
  · exact (hiff 0 _ rfl).mpr (by
      refine ⟨by decide, ⟨2030, 12, 31, 0, 0, 0⟩, by decide, by decide⟩)
  · intro hc
    obtain ⟨-, t, ht, -⟩ := (hiff 1 _ rfl).mp hc
    have hnone : parse_sheet_date (getvCell
        (hdrMap (ensure_headers_names (COMPLETED_EXPECTED.map JVal.str)
          COMPLETED_EXPECTED))
        [JVal.str (S r"Lakers"), .str (S r"Celtics"), .str (S r"home"),
         .str (S r"not a date"), .str (S r"401580002"), .str [], .str [],
         .str []]
        (S r"Game Date")) = none := by decide
    rw [hnone] at ht
    cases ht

/-! ### C1: upsert keeps Game IDs unique (given unique candidates) -/

theorem mem_insSorted (x y : Nat × List JVal) :
    ∀ l, x ∈ insSorted y l ↔ x = y ∨ x ∈ l := by
  intro l
  induction l with
  | nil => simp [insSorted]
  | cons z t ih =>
    unfold insSorted
    by_cases h : z.1 ≤ y.1
    · rw [if_pos h]
      simp only [List.mem_cons, ih]
      tauto
    · rw [if_neg h]
      simp

theorem mem_sortUpdates (x : Nat × List JVal) :
    ∀ l, x ∈ sortUpdates l → x ∈ l := by
  have haux : ∀ l acc : List (Nat × List JVal),
      x ∈ l.foldl (fun a y => insSorted y a) acc → x ∈ acc ∨ x ∈ l := by
    intro l
    induction l with
    | nil => intro acc h; exact Or.inl h
    | cons y t ih =>
      intro acc h
      rcases ih (insSorted y acc) h with h2 | h2
      · rcases (mem_insSorted x y acc).mp h2 with h3 | h3
        · exact Or.inr (by simp [h3])
        · exact Or.inl h3
      · exact Or.inr (List.mem_cons_of_mem _ h2)
  intro l h
  rcases haux l [] h with h2 | h2
  · cases h2
  · exact h2

theorem getD_set (v : List JVal) :
    ∀ (l : List (List JVal)) (k p : Nat),
      (l.set k v).getD p [] =
        if p = k ∧ k < l.length then v else l.getD p [] := by
  intro l
  induction l with
  | nil => intro k p; simp
  | cons a t ih =>
    intro k p
    match k, p with
    | 0, 0 => simp
    | 0, p + 1 => simp
    | k + 1, 0 => simp
    | k + 1, p + 1 =>
      show (t.set k v).getD p [] = _
      rw [ih k p]
      by_cases h : p = k ∧ k < t.length
      · rw [if_pos h, if_pos (by constructor <;> [omega ; simpa using h.2])]
      · rw [if_neg h, if_neg (by
          intro hc
          exact h ⟨by omega, by
            have := hc.2
            simpa using this⟩)]
        simp

theorem tableGids_congr (gi : Nat) :
    ∀ l1 l2 : List (List JVal), l1.length = l2.length →
      (∀ p, extractGid gi (l1.getD p []) = extractGid gi (l2.getD p [])) →
      tableGids gi l1 = tableGids gi l2 := by
  intro l1
  induction l1 with
  | nil =>
    intro l2 hl _
    cases l2 with
    | nil => rfl
    | cons b t2 => simp at hl
  | cons a t1 ih =>
    intro l2 hl hp
    cases l2 with
    | nil => simp at hl
    | cons b t2 =>
      unfold tableGids
      rw [List.filterMap_cons, List.filterMap_cons]
      have h0 := hp 0
      simp only [List.getD] at h0
      have hh : extractGid gi a = extractGid gi b := by simpa using h0
      rw [hh]
      have ht : tableGids gi t1 = tableGids gi t2 := by
        refine ih t2 (by simpa using hl) ?_
        intro p
        have := hp (p + 1)
        simpa using this
      unfold tableGids at ht
      rw [ht]

theorem mem_tableGids (gi : Nat) (g : PyStr) :
    ∀ l, g ∈ tableGids gi l ↔
      (∃ j r, l.get? j = some r ∧ extractGid gi r = g) ∧ g ≠ [] := by
  intro l
  induction l with
  | nil => simp [tableGids]
  | cons r t ih =>
    unfold tableGids
    rw [List.filterMap_cons]
    by_cases h : extractGid gi r = []
    · rw [if_pos h]
      unfold tableGids at ih
      rw [ih]
      constructor
      · rintro ⟨⟨j, r2, hj, he⟩, hg⟩
        exact ⟨⟨j + 1, r2, by simpa using hj, he⟩, hg⟩
      · rintro ⟨⟨j, r2, hj, he⟩, hg⟩
        match j, hj with
        | 0, hj =>
          have : r = r2 := by simpa using hj
          rw [← this] at he
          rw [he] at h
          exact absurd h hg
        | j + 1, hj =>
          exact ⟨⟨j, r2, by simpa using hj, he⟩, hg⟩
    · rw [if_neg h]
      simp only [List.mem_cons]
      unfold tableGids at ih
      rw [ih]
      constructor
      · rintro (hg | ⟨⟨j, r2, hj, he⟩, hg⟩)
        · exact ⟨⟨0, r, rfl, hg.symm⟩, by rw [hg]; exact fun hc => h hc⟩
        · exact ⟨⟨j + 1, r2, by simpa using hj, he⟩, hg⟩
      · rintro ⟨⟨j, r2, hj, he⟩, hg⟩
        match j, hj with
        | 0, hj =>
          have : r = r2 := by simpa using hj
          rw [← this] at he
          exact Or.inl he.symm
        | j + 1, hj =>
          exact Or.inr ⟨⟨j, r2, by simpa using hj, he⟩, hg⟩

theorem tableGids_filter (gi : Nat) :
    ∀ l, tableGids gi l =
      (l.map (extractGid gi)).filter (fun g => decide (¬ g = [])) := by
  intro l
  induction l with
  | nil => rfl
  | cons r t ih =>
    unfold tableGids
    rw [List.filterMap_cons, List.map_cons, List.filter_cons]
    by_cases h : extractGid gi r = []
    · rw [if_pos h, if_neg (by simp [h])]
      exact ih
    · rw [if_neg h, if_pos (by simp [h])]
      unfold tableGids at ih
      rw [ih]

theorem builtRow_gid (b : PyStr → PyDateTime → PyStr → Except PyStr (List JVal))
    (hb : ∀ g d k r, b g d k = .ok r → r.get? 2 = some (.str g))
    (g : PyStr) (d : PyDateTime) (k now : PyStr) :
    (match b g d k with
      | .ok v => v
      | .error e => errRow g e now).get? 2 = some (.str g) := by
  cases hbr : b g d k with
  | ok v => exact hb g d k v hbr
  | error e =>
    show (errRow g e now).get? 2 = some (JVal.str g)
    rw [errRow_eq]
    rfl

theorem runWalk_spec (idx : AdvIndex) (mg : Nat)
    (b : PyStr → PyDateTime → PyStr → Except PyStr (List JVal)) (now : PyStr)
    (hb : ∀ g d k r, b g d k = .ok r → r.get? 2 = some (.str g)) :
    ∀ (cands : List (PyStr × PyDateTime)) (st : WalkSt), ∃ l,
      (runWalk idx mg b now cands st).appends = st.appends ++ l ∧
      List.Sublist (l.map (fun row => row.get? 2))
        (cands.map (fun c => some (JVal.str c.1))) ∧
      (∀ row ∈ l, ∃ c, c ∈ cands ∧
        truthyRowNum (dget idx.gid_to_row c.1) = false ∧
        row.get? 2 = some (.str c.1)) ∧
      (∀ u ∈ (runWalk idx mg b now cands st).updates, u ∈ st.updates ∨
        ∃ c, c ∈ cands ∧ dget idx.gid_to_row c.1 = some u.1 ∧
          u.2.get? 2 = some (.str c.1)) := by
  intro cands
  induction cands with
  | nil =>
    intro st
    refine ⟨[], by simp [runWalk], by simp,
      fun row hrow => absurd hrow (List.not_mem_nil _), ?_⟩
    intro u hu
    exact Or.inl (by simpa [runWalk] using hu)
  | cons c rest ih =>
    intro st
    have hru : runWalk idx mg b now (c :: rest) st =
        if mg ≤ st.processed then st
        else runWalk idx mg b now rest (walkStep idx b now st c) := rfl
    by_cases hcap : mg ≤ st.processed
    · refine ⟨[], ?_, by simp,
        fun row hrow => absurd hrow (List.not_mem_nil _), ?_⟩
      · rw [hru, if_pos hcap]
        simp
      · intro u hu
        rw [hru, if_pos hcap] at hu
        exact Or.inl hu
    · have hru2 : runWalk idx mg b now (c :: rest) st =
          runWalk idx mg b now rest (walkStep idx b now st c) := by
        rw [hru, if_neg hcap]
      obtain ⟨l2, hap2, hsub2, hrow2, hupd2⟩ := ih (walkStep idx b now st c)
      by_cases hskip : truthyRowNum (dget idx.gid_to_row c.1) = true ∧
          dgetD idx.gid_to_status c.1 [] = S r"OK"
      · have hst : walkStep idx b now st c = st := by
          unfold walkStep
          rw [if_pos hskip]
        rw [hst] at hap2 hupd2
        refine ⟨l2, ?_, ?_, ?_, ?_⟩
        · rw [hru2, hst]
          exact hap2
        · exact hsub2.trans (List.sublist_cons_of_sublist _ (List.Sublist.refl _))
        · intro row hrow
          obtain ⟨c2, hc2, ht2, hg2⟩ := hrow2 row hrow
          exact ⟨c2, List.mem_cons_of_mem _ hc2, ht2, hg2⟩
        · intro u hu
          rw [hru2, hst] at hu
          rcases hupd2 u hu with h | ⟨c2, hc2, hd2, hg2⟩
          · exact Or.inl h
          · exact Or.inr ⟨c2, List.mem_cons_of_mem _ hc2, hd2, hg2⟩
      · by_cases htr : truthyRowNum (dget idx.gid_to_row c.1) = true
        · have hstU : (walkStep idx b now st c).updates =
              st.updates ++ [((dget idx.gid_to_row c.1).getD 0,
                match b c.1 c.2 (dgetD idx.gid_to_key c.1 []) with
                | .ok v => v
                | .error e => errRow c.1 e now)] := by
            unfold walkStep
            rw [if_neg hskip, if_pos htr]
          have hstA : (walkStep idx b now st c).appends = st.appends := by
            unfold walkStep
            rw [if_neg hskip, if_pos htr]
          refine ⟨l2, ?_, ?_, ?_, ?_⟩
          · rw [hru2, hap2, hstA]
          · exact hsub2.trans (List.sublist_cons_of_sublist _ (List.Sublist.refl _))
          · intro row hrow
            obtain ⟨c2, hc2, ht2, hg2⟩ := hrow2 row hrow
            exact ⟨c2, List.mem_cons_of_mem _ hc2, ht2, hg2⟩
          · intro u hu
            rw [hru2] at hu
            rcases hupd2 u hu with h | ⟨c2, hc2, hd2, hg2⟩
            · rw [hstU] at h
              rcases List.mem_append.mp h with h2 | h2
              · exact Or.inl h2
              · have hu2 : u = ((dget idx.gid_to_row c.1).getD 0,
                    match b c.1 c.2 (dgetD idx.gid_to_key c.1 []) with
                    | .ok v => v
                    | .error e => errRow c.1 e now) := by simpa using h2
                refine Or.inr ⟨c, List.mem_cons_self _ _, ?_, ?_⟩
                · cases hd : dget idx.gid_to_row c.1 with
                  | none =>
                    rw [hd] at htr
                    simp [truthyRowNum] at htr
                  | some n =>
                    rw [hu2, hd]
                    simp
                · rw [hu2]
                  exact builtRow_gid b hb c.1 c.2 (dgetD idx.gid_to_key c.1 []) now
            · exact Or.inr ⟨c2, List.mem_cons_of_mem _ hc2, hd2, hg2⟩
        · have hstU : (walkStep idx b now st c).updates = st.updates := by
            unfold walkStep
            rw [if_neg hskip, if_neg htr]
          have hstA : (walkStep idx b now st c).appends =
              st.appends ++ [(match b c.1 c.2 (dgetD idx.gid_to_key c.1 []) with
                | .ok v => v
                | .error e => errRow c.1 e now)] := by
            unfold walkStep
            rw [if_neg hskip, if_neg htr]
          refine ⟨(match b c.1 c.2 (dgetD idx.gid_to_key c.1 []) with
            | .ok v => v
            | .error e => errRow c.1 e now) :: l2, ?_, ?_, ?_, ?_⟩
          · rw [hru2, hap2, hstA]
            simp
          · rw [List.map_cons, List.map_cons,
              builtRow_gid b hb c.1 c.2 (dgetD idx.gid_to_key c.1 []) now]
            exact List.Sublist.cons₂ _ hsub2
          · intro row hrow
            rcases List.mem_cons.mp hrow with h | h
            · refine ⟨c, List.mem_cons_self _ _, by simpa using htr, ?_⟩
              rw [h]
              exact builtRow_gid b hb c.1 c.2 (dgetD idx.gid_to_key c.1 []) now
            · obtain ⟨c2, hc2, ht2, hg2⟩ := hrow2 row h
              exact ⟨c2, List.mem_cons_of_mem _ hc2, ht2, hg2⟩
          · intro u hu
            rw [hru2] at hu
            rcases hupd2 u hu with h | ⟨c2, hc2, hd2, hg2⟩
            · rw [hstU] at h
              exact Or.inl h
            · exact Or.inr ⟨c2, List.mem_cons_of_mem _ hc2, hd2, hg2⟩

theorem applyUpdates_cons (h : List JVal) :
    ∀ (us : List (Nat × List JVal)) (data : List (List JVal)),
      (∀ u ∈ us, 2 ≤ u.1) →
      us.foldl applyUpdate (h :: data) =
        h :: us.foldl (fun d (u : Nat × List JVal) => d.set (u.1 - 2) u.2) data := by
  intro us
  induction us with
  | nil => intro data _; rfl
  | cons u t ih =>
    intro data hge
    have h2 : 2 ≤ u.1 := hge u (List.mem_cons_self _ _)
    show t.foldl applyUpdate (applyUpdate (h :: data) u) = _
    have hstep : applyUpdate (h :: data) u = h :: data.set (u.1 - 2) u.2 := by
      unfold applyUpdate
      rw [show u.1 - 1 = (u.1 - 2) + 1 by omega]
      rfl
    rw [hstep, ih (data.set (u.1 - 2) u.2) (fun v hv => hge v (List.mem_cons_of_mem _ hv)),
      List.foldl_cons]

theorem foldl_set_gids (orig : List (List JVal)) :
    ∀ (us : List (Nat × List JVal)) (cur : List (List JVal)),
      cur.length = orig.length →
      (∀ p, extractGid 2 (cur.getD p []) = extractGid 2 (orig.getD p [])) →
      (∀ u ∈ us, extractGid 2 u.2 = extractGid 2 (orig.getD (u.1 - 2) [])) →
      (us.foldl (fun d (u : Nat × List JVal) => d.set (u.1 - 2) u.2) cur).length =
          orig.length ∧
        ∀ p, extractGid 2
            ((us.foldl (fun d (u : Nat × List JVal) => d.set (u.1 - 2) u.2) cur).getD p []) =
          extractGid 2 (orig.getD p []) := by
  intro us
  induction us with
  | nil => intro cur hl hp _; exact ⟨hl, hp⟩
  | cons u t ih =>
    intro cur hl hp hu
    show ((t.foldl _ (cur.set (u.1 - 2) u.2)).length = orig.length ∧ _)
    refine ih (cur.set (u.1 - 2) u.2) (by simpa using hl) ?_
      (fun v hv => hu v (List.mem_cons_of_mem _ hv))
    intro p
    rw [getD_set]
    by_cases hc : p = u.1 - 2 ∧ u.1 - 2 < cur.length
    · rw [if_pos hc]
      rw [hu u (List.mem_cons_self _ _)]
      rw [← hc.1]
    · rw [if_neg hc]
      exact hp p

theorem extractGid_of_get? (r : List JVal) (v : JVal) (h : r.get? 2 = some v) :
    extractGid 2 r = pyStrip (pyStrOfVal v) := by
  unfold extractGid
  have hlt : 2 < r.length := (List.get?_eq_some.mp h).1
  rw [if_pos hlt]
  have hgd : r.getD 2 JVal.null = (r.get? 2).getD JVal.null := by
    simp [List.getD_eq_getElem?_getD, List.get?_eq_getElem?]
  rw [hgd, h]
  rfl

theorem runMain_preserves (data : List (List JVal))
    (cands : List (PyStr × PyDateTime))
    (b : PyStr → PyDateTime → PyStr → Except PyStr (List JVal))
    (now : PyStr) (mg : Nat)
    (hcands : (cands.map Prod.fst).Nodup)
    (hstrip : ∀ c ∈ cands, pyStrip c.1 = c.1)
    (hb : ∀ g d k r, b g d k = .ok r → r.get? 2 = some (.str g))
    (hnd : (tableGids 2 data).Nodup) :
    ∃ out, runMain ((ADV_COLUMNS.map JVal.str) :: data) cands b now mg = .ok out ∧
      out.head? = some (ADV_COLUMNS.map JVal.str) ∧
      (tableGids 2 (out.drop 1)).Nodup := by
  have h1 : ensure_headers_names (ADV_COLUMNS.map JVal.str) ADV_COLUMNS =
      ADV_COLUMNS := by decide
  have hread : read_adv_index ((ADV_COLUMNS.map JVal.str) :: data) =
      .ok (ensure_headers_names (ADV_COLUMNS.map JVal.str) ADV_COLUMNS,
        advIndexScan
          ((hdrMap (ensure_headers_names (ADV_COLUMNS.map JVal.str) ADV_COLUMNS)
            (S r"Game ID")).getD 0)
          ((hdrMap (ensure_headers_names (ADV_COLUMNS.map JVal.str) ADV_COLUMNS)
            (S r"Status")).getD 0)
          ((hdrMap (ensure_headers_names (ADV_COLUMNS.map JVal.str) ADV_COLUMNS)
            (S r"Key")).getD 0) 2 data) := by
    rfl
  rw [h1] at hread
  have hgi : (hdrMap ADV_COLUMNS (S r"Game ID")).getD 0 = 2 := by decide
  have hsi : (hdrMap ADV_COLUMNS (S r"Status")).getD 0 = 25 := by decide
  have hki : (hdrMap ADV_COLUMNS (S r"Key")).getD 0 = 1 := by decide
  rw [hgi, hsi, hki] at hread
  set idx := advIndexScan 2 25 1 2 data with hidx
  set w := runWalk idx mg b now cands ⟨0, [], []⟩ with hw
  have hrm : runMain ((ADV_COLUMNS.map JVal.str) :: data) cands b now mg =
      .ok ((sortUpdates w.updates).foldl applyUpdate
          ((ADV_COLUMNS.map JVal.str) :: data) ++ w.appends) := by
    unfold runMain
    rw [hread]
    show Except.ok
        ((sortUpdates (runWalk idx mg b now cands ⟨0, [], []⟩).updates).foldl
            applyUpdate
            ((if ADV_COLUMNS.length = (ADV_COLUMNS.map JVal.str).length then
              (ADV_COLUMNS.map JVal.str)
            else ADV_COLUMNS.map JVal.str) :: data) ++
          (runWalk idx mg b now cands ⟨0, [], []⟩).appends) = _
    rw [if_pos (by decide)]
  obtain ⟨l, hap, hsub, hrows, hupds⟩ := runWalk_spec idx mg b now hb cands ⟨0, [], []⟩
  have hap2 : w.appends = l := by simpa using hap
  have hge : ∀ u ∈ sortUpdates w.updates, 2 ≤ u.1 := by
    intro u hu
    rcases hupds u (mem_sortUpdates u _ hu) with h | ⟨c, _, hd, _⟩
    · simp at h
    · obtain ⟨j, r, _, hn, _, _⟩ := advIndexScan_row_some 2 25 1 data 2 c.1 u.1 hd
      omega
  have hupdgid : ∀ u ∈ sortUpdates w.updates,
      extractGid 2 u.2 = extractGid 2 (data.getD (u.1 - 2) []) := by
    intro u hu
    rcases hupds u (mem_sortUpdates u _ hu) with h | ⟨c, hc, hd, hg⟩
    · simp at h
    · obtain ⟨j, r, hj, hn, he, hne⟩ := advIndexScan_row_some 2 25 1 data 2 c.1 u.1 hd
      have h2 : u.1 - 2 = j := by omega
      rw [h2]
      have hgd : data.getD j [] = r := by
        have hx : data.getD j [] = (data.get? j).getD [] := by
          simp [List.getD_eq_getElem?_getD, List.get?_eq_getElem?]
        rw [hx, hj]
        rfl
      rw [hgd, he, extractGid_of_get? u.2 (.str c.1) hg]
      exact hstrip c hc
  have happl : (sortUpdates w.updates).foldl applyUpdate
      ((ADV_COLUMNS.map JVal.str) :: data) =
      (ADV_COLUMNS.map JVal.str) ::
        (sortUpdates w.updates).foldl
          (fun d (u : Nat × List JVal) => d.set (u.1 - 2) u.2) data :=
    applyUpdates_cons _ _ _ hge
  set data2 := (sortUpdates w.updates).foldl
    (fun d (u : Nat × List JVal) => d.set (u.1 - 2) u.2) data with hdata2
  have hfold := foldl_set_gids data (sortUpdates w.updates) data rfl
    (fun p => rfl) hupdgid
  have hgids2 : tableGids 2 data2 = tableGids 2 data :=
    tableGids_congr 2 data2 data hfold.1 hfold.2
  -- appended gids: a Nodup sublist of the candidate gids, disjoint from the table
  have hlmap : l.map (extractGid 2) =
      (l.map (fun row => row.get? 2)).map (fun o =>
        match o with
        | some v => pyStrip (pyStrOfVal v)
        | none => []) := by
    rw [List.map_map]
    refine List.map_congr_left ?_
    intro row hrow
    obtain ⟨c, _, _, hg⟩ := hrows row hrow
    show extractGid 2 row =
      (match row.get? 2 with
        | some v => pyStrip (pyStrOfVal v)
        | none => ([] : PyStr))
    rw [extractGid_of_get? row (.str c.1) hg, hg]
  have hcmap : (cands.map (fun c => some (JVal.str c.1))).map (fun o =>
      match o with
      | some v => pyStrip (pyStrOfVal v)
      | none => []) = cands.map Prod.fst := by
    rw [List.map_map]
    refine List.map_congr_left ?_
    intro c hc
    show pyStrip (pyStrOfVal (.str c.1)) = c.1
    exact hstrip c hc
  have hsubgid : List.Sublist (l.map (extractGid 2)) (cands.map Prod.fst) := by
    rw [hlmap, ← hcmap]
    exact hsub.map _
  have hndl : (tableGids 2 l).Nodup := by
    rw [tableGids_filter]
    exact (hsubgid.nodup hcands).filter _
  have hdisj : ∀ g ∈ tableGids 2 data2, g ∉ tableGids 2 l := by
    intro g hgd hgl
    obtain ⟨⟨j, row, hj, he⟩, hne⟩ := (mem_tableGids 2 g l).mp hgl
    obtain ⟨c, hc, htr, hg2⟩ := hrows row (List.get?_mem hj)
    have hgc : g = c.1 := by
      rw [← he, extractGid_of_get? row (.str c.1) hg2]
      exact hstrip c hc
    have hdnone : dget idx.gid_to_row c.1 = none := by
      cases hd : dget idx.gid_to_row c.1 with
      | none => rfl
      | some n =>
        obtain ⟨j2, r2, _, hn2, _, _⟩ := advIndexScan_row_some 2 25 1 data 2 c.1 n hd
        rw [hd] at htr
        simp [truthyRowNum] at htr
        omega
    rw [hgids2] at hgd
    obtain ⟨⟨j3, r3, hj3, he3⟩, _⟩ := (mem_tableGids 2 g data).mp hgd
    exact advIndexScan_row_none 2 25 1 data 2 c.1 (by rw [← hgc]; exact hne)
      hdnone j3 r3 hj3 (by rw [he3, hgc])
  refine ⟨_, hrm, ?_, ?_⟩
  · rw [happl, hap2]
    simp
  · rw [happl, hap2]
    have hdrop : (((ADV_COLUMNS.map JVal.str) :: data2) ++ l).drop 1 = data2 ++ l := by
      simp
    rw [hdrop]
    have hsplit : tableGids 2 (data2 ++ l) = tableGids 2 data2 ++ tableGids 2 l := by
      unfold tableGids
      exact List.filterMap_append _ _ _
    rw [hsplit]
    refine List.Nodup.append ?_ hndl hdisj
    rw [hgids2]
    exact hnd

/-- C1 (amended): runs classify each processed candidate as in-place update
(Game ID already in the start-of-run index) or append (new Game ID), and —
provided each run's candidates carry pairwise-distinct (stripped) Game IDs
and each successfully built row carries its candidate's Game ID in the Game
ID column, as `fetch_adv_row` and the error row always do — any number of
runs starting from a table with distinct Game IDs ends with a table with
distinct Game IDs.  (Without the distinct-candidates proviso the invariant
fails; see the counterexample.) -/
theorem C1_upsert_unique (maxGames : Nat) (table : List (List JVal))
    (runs : List RunSpec)
    (hhd : table.head? = some (ADV_COLUMNS.map JVal.str))
    (hnd : (tableGids 2 (table.drop 1)).Nodup)
    (hruns : ∀ spec ∈ runs, (spec.cands.map Prod.fst).Nodup ∧
      (∀ c ∈ spec.cands, pyStrip c.1 = c.1) ∧
      (∀ g d k r, spec.buildRow g d k = .ok r → r.get? 2 = some (.str g))) :
    ∀ out, runMany maxGames table runs = .ok out →
      out.head? = some (ADV_COLUMNS.map JVal.str) ∧
      (tableGids 2 (out.drop 1)).Nodup := by
  induction runs generalizing table with
  | nil =>
    intro out hout
    have : table = out := by simpa [runMany] using hout
    rw [← this]
    exact ⟨hhd, hnd⟩
  | cons spec rest ih =>
    intro out hout
    cases table with
    | nil => simp at hhd
    | cons hrow data =>
      have hhrow : hrow = ADV_COLUMNS.map JVal.str := by simpa using hhd
      subst hhrow
      obtain ⟨hc1, hc2, hc3⟩ := hruns spec (List.mem_cons_self _ _)
      obtain ⟨out1, hout1, hh1, hn1⟩ := runMain_preserves data spec.cands
        spec.buildRow spec.now maxGames hc1 hc2 hc3 (by simpa using hnd)
      have hstep : runMany maxGames ((ADV_COLUMNS.map JVal.str) :: data)
          (spec :: rest) =
          (match runMain ((ADV_COLUMNS.map JVal.str) :: data) spec.cands
              spec.buildRow spec.now maxGames with
            | .ok t2 => runMany maxGames t2 rest
            | .error e => .error e) := rfl
      rw [hout1] at hstep
      rw [hstep] at hout
      have hout2 : runMany maxGames out1 rest = .ok out := hout
      exact ih out1 hh1 hn1 (fun sp hsp => hruns sp (List.mem_cons_of_mem _ hsp))
        out hout2

/-- Counterexample refuting C1 as stated: two candidates in one run share
the Game ID `0022300456`; neither is in the (empty) start-of-run index, so
both are appended and the output table holds two rows with the same Game
ID — the claimed invariant fails without a distinct-candidates premise. -/
theorem C1_upsert_unique_counterexample :
    ∃ out, runMain [ADV_COLUMNS.map JVal.str]
        [(S r"0022300456", ⟨2024, 5, 1, 0, 0, 0⟩),
         (S r"0022300456", ⟨2024, 5, 1, 0, 0, 0⟩)]
        (fun g _ _ => .ok (errRow g [] (S r"T"))) (S r"T")
        MAX_GAMES_PER_RUN = .ok out ∧
      (tableGids 2 ([ADV_COLUMNS.map JVal.str].drop 1)).Nodup ∧
      ¬ (tableGids 2 (out.drop 1)).Nodup := by
  refine ⟨_, rfl, by decide, by decide⟩

/-- Witness for the amended C1 at a concrete run list. -/
theorem C1_upsert_unique_witness :
    ([ADV_COLUMNS.map JVal.str, errRow (S r"G1") [] (S r"T")] :
        List (List JVal)).head? = some (ADV_COLUMNS.map JVal.str) ∧
      (tableGids 2 (([ADV_COLUMNS.map JVal.str,
        errRow (S r"G1") [] (S r"T")] : List (List JVal)).drop 1)).Nodup := by
  refine C1_upsert_unique 12 [ADV_COLUMNS.map JVal.str]
    [⟨[(S r"G1", ⟨2024, 5, 1, 0, 0, 0⟩)],
      fun g _ _ => .ok (errRow g [] (S r"T")), S r"T"⟩]
    (by decide) (by decide) ?_ _ ?_
  · intro spec hspec
    have hs : spec = ⟨[(S r"G1", ⟨2024, 5, 1, 0, 0, 0⟩)],
        fun g _ _ => .ok (errRow g [] (S r"T")), S r"T"⟩ := by
      simpa using hspec
    subst hs
    refine ⟨by decide, by decide, ?_⟩
    intro g d k r h
    have : errRow g [] (S r"T") = r := Except.ok.inj h
    rw [← this, errRow_eq]
    rfl
  · rfl

/-! ### C8: normalization is idempotent — string-rewriting toolkit -/

theorem isPfx_iff : ∀ a s : PyStr, isPfx a s = true ↔ ∃ t, a ++ t = s := by
  intro a
  induction a with
  | nil => intro s; simp [isPfx]
  | cons x xs ih =>
    intro s
    cases s with
    | nil =>
      simp only [isPfx]
      constructor
      · intro h; cases h
      · rintro ⟨t, ht⟩; cases ht
    | cons y ys =>
      show (decide (x = y) && isPfx xs ys) = true ↔ _
      rw [Bool.and_eq_true, decide_eq_true_eq, ih ys]
      constructor
      · rintro ⟨hxy, t, ht⟩
        exact ⟨t, by rw [← hxy, ← ht]; rfl⟩
      · rintro ⟨t, ht⟩
        have hxy : x = y := by
          have := congrArg (List.head? ·) ht
          simpa using this
        refine ⟨hxy, t, ?_⟩
        have := congrArg (List.tail ·) ht
        simpa using this

theorem isSfx_iff (p s : PyStr) : isSfx p s = true ↔ ∃ w, w ++ p = s := by
  unfold isSfx
  rw [isPfx_iff]
  constructor
  · rintro ⟨t, ht⟩
    refine ⟨t.reverse, ?_⟩
    have := congrArg List.reverse ht
    simpa using this
  · rintro ⟨w, hw⟩
    refine ⟨w.reverse, ?_⟩
    rw [← hw]
    simp

theorem hasInfx_iff : ∀ s a : PyStr, hasInfx a s = true ↔ occursIn a s := by
  intro s
  induction s with
  | nil =>
    intro a
    show isPfx a [] = true ↔ _
    rw [isPfx_iff]
    constructor
    · rintro ⟨t, ht⟩
      exact ⟨[], t, by simpa using ht⟩
    · rintro ⟨u, v, huv⟩
      obtain ⟨h1, h2, h3⟩ : u = [] ∧ a = [] ∧ v = [] := by simpa using huv
      exact ⟨v, by rw [h2, h3]; rfl⟩
  | cons c rest ih =>
    intro a
    show (isPfx a (c :: rest) || hasInfx a rest) = true ↔ _
    rw [Bool.or_eq_true, isPfx_iff, ih]
    constructor
    · rintro (⟨t, ht⟩ | ⟨u, v, huv⟩)
      · exact ⟨[], t, by simpa using ht⟩
      · exact ⟨c :: u, v, by rw [← huv]; rfl⟩
    · rintro ⟨u, v, huv⟩
      cases u with
      | nil => exact Or.inl ⟨v, by simpa using huv⟩
      | cons x xs =>
        have hx : x = c ∧ xs ++ a ++ v = rest := by
          have h1 := congrArg (List.head? ·) huv
          have h2 := congrArg (List.tail ·) huv
          constructor
          · simpa using h1
          · simpa using h2
        exact Or.inr ⟨xs, v, hx.2⟩

theorem occurs_nil_iff (a : PyStr) : occursIn a [] ↔ a = [] := by
  constructor
  · rintro ⟨u, v, huv⟩
    have h1 := List.append_eq_nil.mp huv
    exact (List.append_eq_nil.mp h1.1).2
  · intro h
    exact ⟨[], [], by simp [h]⟩

theorem occurs_single_iff (x : Char) (s : PyStr) : occursIn [x] s ↔ x ∈ s := by
  constructor
  · rintro ⟨u, v, huv⟩
    rw [← huv]
    simp
  · intro h
    obtain ⟨u, v, huv⟩ := List.append_of_mem h
    exact ⟨u, v, by rw [huv]; simp⟩

theorem replaceAllGo_nil (a b : PyStr) (fuel : Nat) : replaceAllGo a b fuel [] = [] := by
  cases fuel <;> rfl

theorem replaceAllGo_fuel (a b : PyStr) :
    ∀ fuel1 : Nat, ∀ fuel2 s, s.length ≤ fuel1 → s.length ≤ fuel2 →
      replaceAllGo a b fuel1 s = replaceAllGo a b fuel2 s := by
  intro fuel1
  induction fuel1 with
  | zero =>
    intro fuel2 s h1 _
    have : s = [] := by
      cases s with
      | nil => rfl
      | cons c t => simp at h1
    rw [this, replaceAllGo_nil, replaceAllGo_nil]
  | succ f ih =>
    intro fuel2 s h1 h2
    cases s with
    | nil => rw [replaceAllGo_nil, replaceAllGo_nil]
    | cons c rest =>
      cases fuel2 with
      | zero => simp at h2
      | succ f2 =>
        show (if a ≠ [] ∧ isPfx a (c :: rest) then
            b ++ replaceAllGo a b f (rest.drop (a.length - 1))
          else c :: replaceAllGo a b f rest) =
          (if a ≠ [] ∧ isPfx a (c :: rest) then
            b ++ replaceAllGo a b f2 (rest.drop (a.length - 1))
          else c :: replaceAllGo a b f2 rest)
        by_cases hc : a ≠ [] ∧ isPfx a (c :: rest) = true
        · rw [if_pos hc, if_pos hc]
          have hd : (rest.drop (a.length - 1)).length ≤ f := by
            have := List.length_drop (a.length - 1) rest
            simp only [List.length_cons] at h1
            omega
          have hd2 : (rest.drop (a.length - 1)).length ≤ f2 := by
            have := List.length_drop (a.length - 1) rest
            simp only [List.length_cons] at h2
            omega
          rw [ih f2 _ hd hd2]
        · rw [if_neg hc, if_neg hc]
          have hr : rest.length ≤ f := by
            simp only [List.length_cons] at h1
            omega
          have hr2 : rest.length ≤ f2 := by
            simp only [List.length_cons] at h2
            omega
          rw [ih f2 rest hr hr2]

theorem replaceAll_nil (a b : PyStr) : replaceAll a b [] = [] := rfl

theorem replaceAll_cons (a b : PyStr) (c : Char) (rest : PyStr) :
    replaceAll a b (c :: rest) =
      if a ≠ [] ∧ isPfx a (c :: rest) then
        b ++ replaceAll a b (rest.drop (a.length - 1))
      else c :: replaceAll a b rest := by
  have hle : (rest.drop (a.length - 1)).length ≤ rest.length := by
    have := List.length_drop (a.length - 1) rest
    omega
  show (if a ≠ [] ∧ isPfx a (c :: rest) then
      b ++ replaceAllGo a b rest.length (rest.drop (a.length - 1))
    else c :: replaceAllGo a b rest.length rest) = _
  by_cases hc : a ≠ [] ∧ isPfx a (c :: rest) = true
  · rw [if_pos hc, if_pos hc]
    show _ = b ++ replaceAllGo a b (rest.drop (a.length - 1)).length (rest.drop (a.length - 1))
    rw [replaceAllGo_fuel a b rest.length (rest.drop (a.length - 1)).length
      (rest.drop (a.length - 1)) hle le_rfl]
  · rw [if_neg hc, if_neg hc]
    rfl

theorem occurs_cons (a : PyStr) (c : Char) (t : PyStr) :
    occursIn a (c :: t) ↔ isPfx a (c :: t) = true ∨ occursIn a t := by
  rw [← hasInfx_iff, ← hasInfx_iff]
  show (isPfx a (c :: t) || hasInfx a t) = true ↔ _
  rw [Bool.or_eq_true]

theorem occurs_drop (t s : PyStr) (k : Nat) (h : occursIn t (s.drop k)) : occursIn t s := by
  obtain ⟨u, v, huv⟩ := h
  refine ⟨s.take k ++ u, v, ?_⟩
  calc (s.take k ++ u) ++ t ++ v = s.take k ++ (u ++ t ++ v) := by simp [List.append_assoc]
    _ = s.take k ++ s.drop k := by rw [huv]
    _ = s := List.take_append_drop k s

theorem isPfx_cons_iff (d c : Char) (w t : PyStr) :
    isPfx (d :: w) (c :: t) = true ↔ d = c ∧ isPfx w t = true := by
  show (decide (d = c) && isPfx w t) = true ↔ _
  rw [Bool.and_eq_true, decide_eq_true_eq]

theorem isPfx_of_append_left (x b y : PyStr) (hl : x.length ≤ b.length)
    (h : isPfx x (b ++ y) = true) : isPfx x b = true := by
  obtain ⟨w, hw⟩ := (isPfx_iff x (b ++ y)).mp h
  have h1 := congrArg (List.take x.length) hw
  rw [List.take_append_of_le_length hl] at h1
  have h2 : (x ++ w).take x.length = x := by
    rw [List.take_append_of_le_length le_rfl, List.take_length]
  rw [h2] at h1
  refine (isPfx_iff x b).mpr ⟨b.drop x.length, ?_⟩
  nth_rewrite 1 [h1]
  exact List.take_append_drop x.length b

theorem occurs_append (t x y : PyStr) (h : occursIn t (x ++ y)) :
    occursIn t x ∨ occursIn t y ∨
      ∃ i, i < t.length ∧ 0 < i ∧ isSfx (t.take i) x = true ∧ isPfx (t.drop i) y = true := by
  obtain ⟨u, v, huv⟩ := h
  rcases List.append_eq_append_iff.mp huv with ⟨a1, hx, _⟩ | ⟨c1, hu, hy⟩
  · left
    exact ⟨u, a1, hx.symm⟩
  · rcases List.append_eq_append_iff.mp hu with ⟨w, hx, ht⟩ | ⟨z, _, hc1⟩
    · cases hwn : w with
      | nil =>
        right; left
        rw [hwn, List.nil_append] at ht
        refine ⟨[], v, ?_⟩
        rw [hy, ← ht]
        rfl
      | cons e es =>
        cases hcn : c1 with
        | nil =>
          left
          rw [hcn, List.append_nil] at ht
          exact ⟨u, [], by rw [hx, ← ht, List.append_nil]⟩
        | cons f fs =>
          right; right
          refine ⟨w.length, ?_, ?_, ?_, ?_⟩
          · rw [ht, List.length_append, hcn]
            simp
          · rw [hwn]; simp
          · rw [ht, List.take_left, isSfx_iff]
            exact ⟨u, hx.symm⟩
          · rw [ht, List.drop_left, isPfx_iff]
            exact ⟨v, hy.symm⟩
    · right; left
      refine ⟨z, v, ?_⟩
      rw [hy, hc1]

theorem replaceAll_of_not_occurs (a b : PyStr) :
    ∀ s, ¬ occursIn a s → replaceAll a b s = s := by
  intro s
  induction s with
  | nil => intro _; exact replaceAll_nil a b
  | cons c rest ih =>
    intro h
    rw [occurs_cons, not_or] at h
    rw [replaceAll_cons, if_neg (by
      intro hc
      exact h.1 hc.2)]
    rw [ih h.2]

theorem replaceAll_single (x y : Char) :
    ∀ s, replaceAll [x] [y] s = s.map (fun c => if c = x then y else c) := by
  intro s
  induction s with
  | nil => rfl
  | cons c rest ih =>
    rw [replaceAll_cons]
    by_cases hx : x = c
    · rw [if_pos ⟨by simp, by rw [isPfx_cons_iff]; exact ⟨hx, rfl⟩⟩]
      show y :: replaceAll [x] [y] (rest.drop 0) = _
      rw [List.drop_zero, ih, List.map_cons, if_pos hx.symm]
    · rw [if_neg (by
        rintro ⟨-, hp⟩
        rw [isPfx_cons_iff] at hp
        exact hx hp.1)]
      rw [ih, List.map_cons, if_neg (fun hh => hx hh.symm)]

theorem isPfx_nil_left (s : PyStr) : isPfx [] s = true := rfl

theorem eq_nil_of_isPfx_nil (x : PyStr) (h : isPfx x [] = true) : x = [] := by
  cases x with
  | nil => rfl
  | cons c t => cases h

theorem replaceAll_avoid (t a b : PyStr)
    (ht : t ≠ [])
    (hb : ¬ occursIn t b)
    (hlen : t.length ≤ b.length + 1)
    (hJ1 : ∀ i, i < t.length → 0 < i → isSfx (t.take i) b = false)
    (hJ2 : ∀ j, j < t.length → 0 < j → isPfx (t.drop j) b = false) :
    ∀ n : Nat, ∀ s, s.length ≤ n → (t = a ∨ ¬ occursIn t s) →
      ¬ occursIn t (replaceAll a b s) ∧
      (∀ j, j < t.length → 0 < j → isPfx (t.drop j) (replaceAll a b s) = true →
        isPfx (t.drop j) s = true) := by
  intro n
  induction n with
  | zero =>
    intro s hn _
    have hs : s = [] := by
      cases s with
      | nil => rfl
      | cons c r => simp at hn
    subst hs
    rw [replaceAll_nil]
    constructor
    · intro ho
      exact ht ((occurs_nil_iff t).mp ho)
    · intro j hj _ hp
      have : t.drop j = [] := eq_nil_of_isPfx_nil _ hp
      have := congrArg List.length this
      simp at this
      omega
  | succ n ih =>
    intro s hn seed
    cases s with
    | nil =>
      rw [replaceAll_nil]
      constructor
      · intro ho
        exact ht ((occurs_nil_iff t).mp ho)
      · intro j hj _ hp
        have : t.drop j = [] := eq_nil_of_isPfx_nil _ hp
        have := congrArg List.length this
        simp at this
        omega
    | cons c rest =>
      rw [replaceAll_cons]
      simp only [List.length_cons] at hn
      by_cases hm : a ≠ [] ∧ isPfx a (c :: rest) = true
      · rw [if_pos hm]
        have hlrest : (rest.drop (a.length - 1)).length ≤ n := by
          have := List.length_drop (a.length - 1) rest
          omega
        have seed' : t = a ∨ ¬ occursIn t (rest.drop (a.length - 1)) := by
          rcases seed with h | h
          · exact Or.inl h
          · refine Or.inr (fun ho => h ?_)
            exact (occurs_cons t c rest).mpr (Or.inr (occurs_drop t rest _ ho))
        have IH := ih (rest.drop (a.length - 1)) hlrest seed'
        constructor
        · intro ho
          rcases occurs_append t b _ ho with h1 | h2 | ⟨i, hi, hipos, hsfx, _⟩
          · exact hb h1
          · exact IH.1 h2
          · rw [hJ1 i hi hipos] at hsfx
            cases hsfx
        · intro j hj hjpos hp
          exfalso
          have hl2 : (t.drop j).length ≤ b.length := by
            rw [List.length_drop]
            omega
          have := isPfx_of_append_left _ b _ hl2 hp
          rw [hJ2 j hj hjpos] at this
          cases this
      · rw [if_neg hm]
        have seed'' : t = a ∨ ¬ occursIn t rest := by
          rcases seed with h | h
          · exact Or.inl h
          · exact Or.inr (fun ho => h ((occurs_cons t c rest).mpr (Or.inr ho)))
        have IH := ih rest (by omega) seed''
        constructor
        · intro ho
          rcases (occurs_cons t c _).mp ho with hpfx | h2
          · cases htc : t with
            | nil => exact ht htc
            | cons d t2 =>
              rw [htc, isPfx_cons_iff] at hpfx
              obtain ⟨hdc, hp2⟩ := hpfx
              have hpcr : isPfx t (c :: rest) = true := by
                cases ht2 : t2 with
                | nil =>
                  rw [htc, ht2, isPfx_cons_iff]
                  exact ⟨hdc, rfl⟩
                | cons e t3 =>
                  have h1lt : 1 < t.length := by
                    rw [htc, ht2]
                    simp
                  have hdrop1 : t.drop 1 = t2 := by rw [htc]; rfl
                  have hpr : isPfx (t.drop 1) rest = true := by
                    refine IH.2 1 h1lt (by omega) ?_
                    rw [hdrop1]
                    exact hp2
                  rw [htc, isPfx_cons_iff]
                  refine ⟨hdc, ?_⟩
                  rw [hdrop1] at hpr
                  exact hpr
              rcases seed with hta | hno
              · rw [← hta] at hm
                exact hm ⟨ht, hpcr⟩
              · exact hno ((occurs_cons t c rest).mpr (Or.inl hpcr))
          · exact IH.1 h2
        · intro j hj hjpos hp
          have hdc : t.drop j = t[j] :: t.drop (j+1) := List.drop_eq_getElem_cons hj
          rw [hdc, isPfx_cons_iff] at hp
          rw [hdc, isPfx_cons_iff]
          refine ⟨hp.1, ?_⟩
          by_cases hje : j + 1 < t.length
          · exact IH.2 (j+1) hje (by omega) hp.2
          · have : t.drop (j+1) = [] := by
              rw [List.drop_eq_nil_iff]
              omega
            rw [this]
            exact isPfx_nil_left rest

theorem isWsCh_false_of_mid (c : Char) (h1 : 64 < c.toNat) (h2 : c.toNat < 128) :
    isWsCh c = false := by
  simp only [isWsCh, Bool.or_eq_false_iff, Bool.and_eq_false_iff, decide_eq_false_iff_not]
  omega

theorem pyLowerChar_idem (c : Char) : pyLowerChar (pyLowerChar c) = pyLowerChar c := by
  unfold pyLowerChar
  by_cases h : 65 ≤ c.toNat ∧ c.toNat ≤ 90
  · rw [if_pos h]
    have hv : (Char.ofNat (c.toNat + 32)).toNat = c.toNat + 32 :=
      charToNat_ofNat _ (by omega)
    rw [if_neg (by rw [hv]; omega)]
  · rw [if_neg h, if_neg h]

theorem isWsCh_pyLowerChar (c : Char) : isWsCh (pyLowerChar c) = isWsCh c := by
  unfold pyLowerChar
  by_cases h : 65 ≤ c.toNat ∧ c.toNat ≤ 90
  · rw [if_pos h]
    have hv : (Char.ofNat (c.toNat + 32)).toNat = c.toNat + 32 :=
      charToNat_ofNat _ (by omega)
    rw [isWsCh_false_of_mid _ (by rw [hv]; omega) (by rw [hv]; omega),
      isWsCh_false_of_mid _ (by omega) (by omega)]
  · rw [if_neg h]

theorem map_eq_self_of (f : Char → Char) (l : PyStr) (h : ∀ x ∈ l, f x = x) :
    l.map f = l := by
  induction l with
  | nil => rfl
  | cons c t ih =>
    simp only [List.map_cons, h c (by simp), ih (fun x hx => h x (by simp [hx]))]

theorem headOkWs_map (f : Char → Char) (hf : ∀ c, isWsCh (f c) = isWsCh c) (l : PyStr) :
    headOkWs (l.map f) = headOkWs l := by
  cases l with
  | nil => rfl
  | cons c t =>
    show (!isWsCh (f c)) = (!isWsCh c)
    rw [hf]

theorem lastOkWs_map (f : Char → Char) (hf : ∀ c, isWsCh (f c) = isWsCh c) (l : PyStr) :
    lastOkWs (l.map f) = lastOkWs l := by
  unfold lastOkWs
  rw [List.getLast?_map]
  cases l.getLast? with
  | none => rfl
  | some c =>
    show (!isWsCh (f c)) = (!isWsCh c)
    rw [hf]

theorem headOkWs_reverse (s : PyStr) : headOkWs s.reverse = lastOkWs s := by
  unfold headOkWs lastOkWs
  rw [List.head?_reverse]

theorem getLast?_reverse_eq (s : PyStr) : s.reverse.getLast? = s.head? := by
  conv_rhs => rw [← List.reverse_reverse s]
  rw [List.head?_reverse]

theorem lastOkWs_reverse (s : PyStr) : lastOkWs s.reverse = headOkWs s := by
  unfold headOkWs lastOkWs
  rw [getLast?_reverse_eq]

theorem headOkWs_dropWhile (l : PyStr) : headOkWs (l.dropWhile isWsCh) = true := by
  induction l with
  | nil => rfl
  | cons c t ih =>
    rw [List.dropWhile_cons]
    by_cases h : isWsCh c = true
    · rw [if_pos h]
      exact ih
    · rw [if_neg h]
      show (!isWsCh c) = true
      rw [Bool.eq_false_iff.mpr h]
      rfl

theorem dropWhile_eq_self_of_headOk (l : PyStr) (h : headOkWs l = true) :
    l.dropWhile isWsCh = l := by
  cases l with
  | nil => rfl
  | cons c t =>
    rw [List.dropWhile_cons, if_neg]
    intro hc
    have : (!isWsCh c) = true := h
    rw [hc] at this
    cases this

theorem getLast?_cons_of_ne_nil (c : Char) (w : PyStr) (h : w ≠ []) :
    (c :: w).getLast? = w.getLast? := by
  show ([c] ++ w).getLast? = w.getLast?
  exact List.getLast?_append_of_ne_nil [c] h

theorem getLast?_drop_of_ne_nil (l : PyStr) (k : Nat) (h : l.drop k ≠ []) :
    (l.drop k).getLast? = l.getLast? := by
  conv_rhs => rw [← List.take_append_drop k l]
  rw [List.getLast?_append_of_ne_nil _ h]

theorem lastOkWs_congr (s1 s2 : PyStr) (h : s1.getLast? = s2.getLast?) :
    lastOkWs s1 = lastOkWs s2 := by
  unfold lastOkWs
  rw [h]

theorem getLast?_dropWhile_eq (l : PyStr) (h : l.dropWhile isWsCh ≠ []) :
    (l.dropWhile isWsCh).getLast? = l.getLast? := by
  conv_rhs => rw [← List.takeWhile_append_dropWhile (p := isWsCh) (l := l)]
  rw [List.getLast?_append_of_ne_nil _ h]

theorem headOkWs_pyStrip (s : PyStr) : headOkWs (pyStrip s) = true := by
  unfold pyStrip
  rw [headOkWs_reverse]
  by_cases h : (s.dropWhile isWsCh).reverse.dropWhile isWsCh = []
  · rw [h]
    rfl
  · unfold lastOkWs
    rw [getLast?_dropWhile_eq _ h, getLast?_reverse_eq]
    have h1 : headOkWs (s.dropWhile isWsCh) = true := headOkWs_dropWhile s
    unfold headOkWs at h1
    exact h1

theorem lastOkWs_pyStrip (s : PyStr) : lastOkWs (pyStrip s) = true := by
  unfold pyStrip
  rw [lastOkWs_reverse]
  exact headOkWs_dropWhile _

theorem pyStrip_id (s : PyStr) (h1 : headOkWs s = true) (h2 : lastOkWs s = true) :
    pyStrip s = s := by
  unfold pyStrip
  rw [dropWhile_eq_self_of_headOk s h1,
    dropWhile_eq_self_of_headOk s.reverse (by rw [headOkWs_reverse]; exact h2),
    List.reverse_reverse]

theorem wsCollapseGo_cons (p : Bool) (c : Char) (rest : PyStr) :
    wsCollapseGo p (c :: rest) =
      if isWsCh c then
        (if p then wsCollapseGo true rest else ' ' :: wsCollapseGo true rest)
      else c :: wsCollapseGo false rest := rfl

theorem wsCollapseGo_cons_ws_true (c : Char) (rest : PyStr) (hc : isWsCh c = true) :
    wsCollapseGo true (c :: rest) = wsCollapseGo true rest := by
  rw [wsCollapseGo_cons, if_pos hc, if_pos rfl]

theorem wsCollapseGo_cons_ws_false (c : Char) (rest : PyStr) (hc : isWsCh c = true) :
    wsCollapseGo false (c :: rest) = ' ' :: wsCollapseGo true rest := by
  rw [wsCollapseGo_cons, if_pos hc, if_neg Bool.false_ne_true]

theorem wsCollapseGo_cons_nonws (p : Bool) (c : Char) (rest : PyStr) (hc : isWsCh c = false) :
    wsCollapseGo p (c :: rest) = c :: wsCollapseGo false rest := by
  rw [wsCollapseGo_cons, if_neg (by rw [hc]; intro hh; cases hh)]

theorem headOkWs_head_false (l : PyStr) (e : Char) (hl : headOkWs l = true)
    (he : l.head? = some e) : isWsCh e = false := by
  cases l with
  | nil => cases he
  | cons c t =>
    have hce : c = e := by
      have : some c = some e := he
      exact Option.some.inj this
    have : (!isWsCh c) = true := hl
    rw [hce] at this
    cases hv : isWsCh e
    · rfl
    · rw [hv] at this; cases this

theorem mem_wsCollapseGo (c : Char) :
    ∀ s : PyStr, ∀ p : Bool, c ∈ wsCollapseGo p s → c = ' ' ∨ c ∈ s := by
  intro s
  induction s with
  | nil => intro p h; cases h
  | cons d rest ih =>
    intro p h
    by_cases hd : isWsCh d = true
    · cases p with
      | true =>
        rw [wsCollapseGo_cons_ws_true d rest hd] at h
        rcases ih true h with h1 | h2
        · exact Or.inl h1
        · exact Or.inr (by simp [h2])
      | false =>
        rw [wsCollapseGo_cons_ws_false d rest hd] at h
        cases h with
        | head => exact Or.inl rfl
        | tail _ h =>
          rcases ih true h with h1 | h2
          · exact Or.inl h1
          · exact Or.inr (by simp [h2])
    · rw [wsCollapseGo_cons_nonws p d rest (Bool.eq_false_iff.mpr hd)] at h
      cases h with
      | head => exact Or.inr (by simp)
      | tail _ h =>
        rcases ih false h with h1 | h2
        · exact Or.inl h1
        · exact Or.inr (by simp [h2])

theorem wsOnlySpace_wsCollapseGo :
    ∀ s : PyStr, ∀ p : Bool, wsOnlySpace (wsCollapseGo p s) = true := by
  intro s
  induction s with
  | nil => intro p; rfl
  | cons d rest ih =>
    intro p
    by_cases hd : isWsCh d = true
    · cases p with
      | true =>
        rw [wsCollapseGo_cons_ws_true d rest hd]
        exact ih true
      | false =>
        rw [wsCollapseGo_cons_ws_false d rest hd]
        show ((!isWsCh ' ' || decide (' ' = ' ')) && (wsCollapseGo true rest).all _) = true
        rw [Bool.and_eq_true]
        exact ⟨by decide, ih true⟩
    · rw [wsCollapseGo_cons_nonws p d rest (Bool.eq_false_iff.mpr hd)]
      show ((!isWsCh d || decide (d = ' ')) && (wsCollapseGo false rest).all _) = true
      rw [Bool.and_eq_true]
      refine ⟨?_, ih false⟩
      rw [Bool.eq_false_iff.mpr hd]
      rfl

theorem headOkWs_wsCollapseGo_true :
    ∀ s : PyStr, headOkWs (wsCollapseGo true s) = true := by
  intro s
  induction s with
  | nil => rfl
  | cons d rest ih =>
    by_cases hd : isWsCh d = true
    · rw [wsCollapseGo_cons_ws_true d rest hd]
      exact ih
    · rw [wsCollapseGo_cons_nonws true d rest (Bool.eq_false_iff.mpr hd)]
      show (!isWsCh d) = true
      rw [Bool.eq_false_iff.mpr hd]
      rfl

theorem noAdjWs_cons_cons (c d : Char) (t : PyStr) :
    noAdjWs (c :: d :: t) = ((!(isWsCh c && isWsCh d)) && noAdjWs (d :: t)) := rfl

theorem noAdjWs_tail (c : Char) (w : PyStr) (h : noAdjWs (c :: w) = true) :
    noAdjWs w = true := by
  cases w with
  | nil => rfl
  | cons d t =>
    rw [noAdjWs_cons_cons, Bool.and_eq_true] at h
    exact h.2

theorem noAdjWs_drop : ∀ k : Nat, ∀ l : PyStr, noAdjWs l = true → noAdjWs (l.drop k) = true := by
  intro k
  induction k with
  | zero => intro l h; simpa using h
  | succ n ih =>
    intro l h
    cases l with
    | nil => rfl
    | cons c w =>
      show noAdjWs (w.drop n) = true
      exact ih w (noAdjWs_tail c w h)

theorem noAdjWs_of_cons (c : Char) (w : PyStr) (hw : noAdjWs w = true)
    (hp : ∀ d, w.head? = some d → (isWsCh c && isWsCh d) = false) :
    noAdjWs (c :: w) = true := by
  cases w with
  | nil => rfl
  | cons d t =>
    rw [noAdjWs_cons_cons, Bool.and_eq_true]
    exact ⟨by rw [hp d rfl]; rfl, hw⟩

theorem noAdjWs_wsCollapseGo :
    ∀ s : PyStr, ∀ p : Bool, noAdjWs (wsCollapseGo p s) = true := by
  intro s
  induction s with
  | nil => intro p; rfl
  | cons d rest ih =>
    intro p
    by_cases hd : isWsCh d = true
    · cases p with
      | true =>
        rw [wsCollapseGo_cons_ws_true d rest hd]
        exact ih true
      | false =>
        rw [wsCollapseGo_cons_ws_false d rest hd]
        refine noAdjWs_of_cons ' ' _ (ih true) ?_
        intro e he
        rw [headOkWs_head_false _ e (headOkWs_wsCollapseGo_true rest) he, Bool.and_false]
    · rw [wsCollapseGo_cons_nonws p d rest (Bool.eq_false_iff.mpr hd)]
      refine noAdjWs_of_cons d _ (ih false) ?_
      intro e _
      rw [Bool.eq_false_iff.mpr hd]
      rfl

theorem getLast?_wsCollapseGo :
    ∀ s : PyStr, ∀ p : Bool, lastOkWs s = true →
      (wsCollapseGo p s).getLast? = s.getLast? := by
  intro s
  induction s with
  | nil => intro p _; rfl
  | cons d rest ih =>
    intro p h
    cases rest with
    | nil =>
      have hd : isWsCh d = false := by
        have : (!isWsCh d) = true := h
        cases hv : isWsCh d
        · rfl
        · rw [hv] at this; cases this
      rw [wsCollapseGo_cons_nonws p d [] hd]
      rfl
    | cons e t =>
      have hlast : (d :: e :: t).getLast? = (e :: t).getLast? :=
        getLast?_cons_of_ne_nil d (e :: t) (by intro hh; cases hh)
      have hrest : lastOkWs (e :: t) = true := by
        rw [← lastOkWs_congr _ _ hlast]
        exact h
      have hne : (e :: t).getLast? ≠ none := by simp
      by_cases hd : isWsCh d = true
      · cases p with
        | true =>
          rw [wsCollapseGo_cons_ws_true d _ hd, ih true hrest, hlast]
        | false =>
          rw [wsCollapseGo_cons_ws_false d _ hd]
          have hrec := ih true hrest
          have hrecne : wsCollapseGo true (e :: t) ≠ [] := by
            intro hh
            rw [hh] at hrec
            exact hne hrec.symm
          rw [getLast?_cons_of_ne_nil ' ' _ hrecne, hrec, hlast]
      · rw [wsCollapseGo_cons_nonws p d _ (Bool.eq_false_iff.mpr hd)]
        have hrec := ih false hrest
        have hrecne : wsCollapseGo false (e :: t) ≠ [] := by
          intro hh
          rw [hh] at hrec
          exact hne hrec.symm
        rw [getLast?_cons_of_ne_nil d _ hrecne, hrec, hlast]

theorem headOkWs_wsCollapse (l : PyStr) (h : headOkWs l = true) :
    headOkWs (wsCollapse l) = true := by
  cases l with
  | nil => rfl
  | cons c t =>
    have hc : isWsCh c = false := headOkWs_head_false _ c h rfl
    show headOkWs (wsCollapseGo false (c :: t)) = true
    rw [wsCollapseGo_cons_nonws false c t hc]
    show (!isWsCh c) = true
    rw [hc]
    rfl

theorem wsCollapse_id :
    ∀ s : PyStr, wsOnlySpace s = true → noAdjWs s = true → wsCollapse s = s := by
  intro s
  induction s with
  | nil => intro _ _; rfl
  | cons c rest ih =>
    intro h1 h2
    have h1rest : wsOnlySpace rest = true := by
      rw [wsOnlySpace, List.all_cons, Bool.and_eq_true] at h1
      exact h1.2
    have ihr : wsCollapseGo false rest = rest := ih h1rest (noAdjWs_tail _ _ h2)
    show wsCollapseGo false (c :: rest) = c :: rest
    by_cases hc : isWsCh c = true
    · have hcsp : c = ' ' := by
        rw [wsOnlySpace, List.all_cons, Bool.and_eq_true] at h1
        have := h1.1
        rw [hc] at this
        simpa using this
      rw [wsCollapseGo_cons_ws_false c rest hc]
      cases rest with
      | nil => rw [hcsp]; rfl
      | cons d t =>
        have hd : isWsCh d = false := by
          rw [noAdjWs_cons_cons, Bool.and_eq_true] at h2
          have := h2.1
          rw [hc] at this
          cases hv : isWsCh d
          · rfl
          · rw [hv] at this
            cases this
        have hstep : wsCollapseGo true (d :: t) = wsCollapseGo false (d :: t) := by
          rw [wsCollapseGo_cons_nonws true d t hd, wsCollapseGo_cons_nonws false d t hd]
        rw [hstep, ihr, hcsp]
    · rw [wsCollapseGo_cons_nonws false c rest (Bool.eq_false_iff.mpr hc), ihr]

theorem replaceAll_ne_nil (a b s : PyStr) (hb : b ≠ []) (hs : s ≠ []) :
    replaceAll a b s ≠ [] := by
  cases s with
  | nil => exact absurd rfl hs
  | cons c rest =>
    rw [replaceAll_cons]
    by_cases hm : a ≠ [] ∧ isPfx a (c :: rest) = true
    · rw [if_pos hm]
      intro hh
      exact hb (List.append_eq_nil.mp hh).1
    · rw [if_neg hm]
      intro hh
      cases hh

theorem mem_replaceAllGo (a b : PyStr) (c : Char) :
    ∀ fuel : Nat, ∀ s, c ∈ replaceAllGo a b fuel s → c ∈ b ∨ c ∈ s := by
  intro fuel
  induction fuel with
  | zero =>
    intro s h
    cases s with
    | nil => cases h
    | cons d rest => exact Or.inr h
  | succ n ih =>
    intro s h
    cases s with
    | nil => cases h
    | cons d rest =>
      by_cases hm : a ≠ [] ∧ isPfx a (d :: rest) = true
      · rw [show replaceAllGo a b (n+1) (d :: rest) =
            b ++ replaceAllGo a b n (rest.drop (a.length - 1)) by
          show (if a ≠ [] ∧ isPfx a (d :: rest) then _ else _) = _
          rw [if_pos hm]] at h
        rcases List.mem_append.mp h with h1 | h2
        · exact Or.inl h1
        · rcases ih _ h2 with h3 | h4
          · exact Or.inl h3
          · exact Or.inr (by simp [List.mem_of_mem_drop h4])
      · rw [show replaceAllGo a b (n+1) (d :: rest) = d :: replaceAllGo a b n rest by
          show (if a ≠ [] ∧ isPfx a (d :: rest) then _ else _) = _
          rw [if_neg hm]] at h
        cases h with
        | head => exact Or.inr (by simp)
        | tail _ h =>
          rcases ih _ h with h3 | h4
          · exact Or.inl h3
          · exact Or.inr (by simp [h4])

theorem mem_replaceAll (a b s : PyStr) (c : Char) (h : c ∈ replaceAll a b s) :
    c ∈ b ∨ c ∈ s :=
  mem_replaceAllGo a b c s.length s h

theorem headOkWs_replaceAll (a b s : PyStr) (hb : b ≠ []) (hhb : headOkWs b = true)
    (hhs : headOkWs s = true) : headOkWs (replaceAll a b s) = true := by
  cases s with
  | nil => rfl
  | cons c rest =>
    rw [replaceAll_cons]
    by_cases hm : a ≠ [] ∧ isPfx a (c :: rest) = true
    · rw [if_pos hm]
      cases b with
      | nil => exact absurd rfl hb
      | cons e b2 =>
        show (!isWsCh e) = true
        exact hhb
    · rw [if_neg hm]
      show (!isWsCh c) = true
      exact hhs

theorem lastOkWs_replaceAll (a b : PyStr) (hb : b ≠ []) (hlb : lastOkWs b = true) :
    ∀ n : Nat, ∀ s, s.length ≤ n → lastOkWs s = true →
      lastOkWs (replaceAll a b s) = true := by
  intro n
  induction n with
  | zero =>
    intro s hn _
    have hs : s = [] := by
      cases s with
      | nil => rfl
      | cons c r => simp at hn
    rw [hs, replaceAll_nil]
    rfl
  | succ n ih =>
    intro s hn hls
    cases s with
    | nil => rw [replaceAll_nil]; rfl
    | cons c rest =>
      simp only [List.length_cons] at hn
      rw [replaceAll_cons]
      by_cases hm : a ≠ [] ∧ isPfx a (c :: rest) = true
      · rw [if_pos hm]
        by_cases hre : rest.drop (a.length - 1) = []
        · rw [hre, replaceAll_nil, List.append_nil]
          exact hlb
        · have hrest_ne : rest ≠ [] := by
            intro hh
            rw [hh] at hre
            exact hre (by simp)
          have hlrest : lastOkWs (rest.drop (a.length - 1)) = true := by
            rw [lastOkWs_congr _ _ (getLast?_drop_of_ne_nil rest _ hre),
              lastOkWs_congr _ _ (getLast?_cons_of_ne_nil c rest hrest_ne).symm]
            exact hls
          have hrec := ih (rest.drop (a.length - 1)) (by
            have := List.length_drop (a.length - 1) rest
            omega) hlrest
          have hrec_ne : replaceAll a b (rest.drop (a.length - 1)) ≠ [] :=
            replaceAll_ne_nil a b _ hb hre
          rw [lastOkWs_congr _ _ (List.getLast?_append_of_ne_nil b hrec_ne)]
          exact hrec
      · rw [if_neg hm]
        by_cases hres : rest = []
        · rw [hres, replaceAll_nil]
          rw [hres] at hls
          exact hls
        · have hrest_ne : rest ≠ [] := hres
          have hlrest : lastOkWs rest = true := by
            rw [lastOkWs_congr _ _ (getLast?_cons_of_ne_nil c rest hrest_ne).symm]
            exact hls
          have hrec := ih rest (by omega) hlrest
          have hrec_ne : replaceAll a b rest ≠ [] :=
            replaceAll_ne_nil a b rest hb hrest_ne
          rw [lastOkWs_congr _ _ (getLast?_cons_of_ne_nil c _ hrec_ne)]
          exact hrec

theorem noAdjWs_append (x y : PyStr) (hx : noAdjWs x = true) (hlx : lastOkWs x = true)
    (hy : noAdjWs y = true) : noAdjWs (x ++ y) = true := by
  induction x with
  | nil => exact hy
  | cons c xs ih =>
    cases xs with
    | nil =>
      show noAdjWs (c :: y) = true
      refine noAdjWs_of_cons c y hy ?_
      intro d _
      have hc : isWsCh c = false := by
        have : (!isWsCh c) = true := hlx
        cases hv : isWsCh c
        · rfl
        · rw [hv] at this; cases this
      rw [hc]
      rfl
    | cons d t =>
      have hlx2 : lastOkWs (d :: t) = true := by
        rw [lastOkWs_congr _ _ (getLast?_cons_of_ne_nil c (d :: t) (by intro hh; cases hh)).symm]
        exact hlx
      rw [noAdjWs_cons_cons] at hx
      rw [Bool.and_eq_true] at hx
      show noAdjWs (c :: (d :: t) ++ y) = true
      have hrec := ih hx.2 hlx2
      refine noAdjWs_of_cons c _ hrec ?_
      intro e he
      have hed : d = e := Option.some.inj (show some d = some e from he)
      rw [← hed]
      have := hx.1
      rw [Bool.not_eq_true'] at this
      exact this

theorem noAdjWs_replaceAll (a b : PyStr) (hb : b ≠ []) (hhb : headOkWs b = true)
    (hlb : lastOkWs b = true) (hab : noAdjWs b = true) :
    ∀ n : Nat, ∀ s, s.length ≤ n → noAdjWs s = true →
      noAdjWs (replaceAll a b s) = true := by
  intro n
  induction n with
  | zero =>
    intro s hn _
    have hs : s = [] := by
      cases s with
      | nil => rfl
      | cons c r => simp at hn
    rw [hs, replaceAll_nil]
    rfl
  | succ n ih =>
    intro s hn has
    cases s with
    | nil => rw [replaceAll_nil]; rfl
    | cons c rest =>
      simp only [List.length_cons] at hn
      rw [replaceAll_cons]
      by_cases hm : a ≠ [] ∧ isPfx a (c :: rest) = true
      · rw [if_pos hm]
        have hrest : noAdjWs (rest.drop (a.length - 1)) = true :=
          noAdjWs_drop _ rest (noAdjWs_tail c rest has)
        have hrec := ih (rest.drop (a.length - 1)) (by
          have := List.length_drop (a.length - 1) rest
          omega) hrest
        exact noAdjWs_append b _ hab hlb hrec
      · rw [if_neg hm]
        have hrec := ih rest (by omega) (noAdjWs_tail c rest has)
        refine noAdjWs_of_cons c _ hrec ?_
        intro e he
        by_cases hc : isWsCh c = true
        · have hhrest : headOkWs rest = true := by
            cases hres : rest with
            | nil => rfl
            | cons d t =>
              rw [hres] at has
              rw [noAdjWs_cons_cons, Bool.and_eq_true] at has
              have := has.1
              rw [hc] at this
              show (!isWsCh d) = true
              cases hv : isWsCh d
              · rfl
              · rw [hv] at this; cases this
          have hhrec : headOkWs (replaceAll a b rest) = true :=
            headOkWs_replaceAll a b rest hb hhb hhrest
          rw [headOkWs_head_false _ e hhrec he, Bool.and_false]
        · rw [Bool.eq_false_iff.mpr hc]
          rfl

theorem wsOnlySpace_mem (l : PyStr) (h : ∀ c ∈ l, isWsCh c = true → c = ' ') :
    wsOnlySpace l = true := by
  rw [wsOnlySpace, List.all_eq_true]
  intro c hc
  by_cases hw : isWsCh c = true
  · rw [h c hc hw]
    simp
  · rw [Bool.eq_false_iff.mpr hw]
    rfl

theorem wsOnlySpace_mem_rev (l : PyStr) (h : wsOnlySpace l = true) :
    ∀ c ∈ l, isWsCh c = true → c = ' ' := by
  rw [wsOnlySpace, List.all_eq_true] at h
  intro c hc hw
  have := h c hc
  rw [hw] at this
  simpa using this

theorem not_occurs_of_hasInfx_false (a s : PyStr) (h : hasInfx a s = false) :
    ¬ occursIn a s := by
  intro ho
  have := (hasInfx_iff s a).mpr ho
  rw [h] at this
  cases this

theorem normalize_invariants (s : PyStr) :
    headOkWs (normalize_team_name s) = true ∧
    lastOkWs (normalize_team_name s) = true ∧
    wsOnlySpace (normalize_team_name s) = true ∧
    noAdjWs (normalize_team_name s) = true ∧
    (∀ c ∈ normalize_team_name s, pyLowerChar c = c) ∧
    ¬ occursIn (S r"la clippers") (normalize_team_name s) ∧
    ¬ occursIn (S r"la lakers") (normalize_team_name s) := by
  have hsub : ∀ c : Char, isWsCh (if c = nbspCh then ' ' else c) = isWsCh c := by
    intro c
    by_cases h : c = nbspCh
    · rw [if_pos h, h]
      decide
    · rw [if_neg h]
  have h0h : headOkWs (pyLower (pyStrip s)) = true := by
    show headOkWs ((pyStrip s).map pyLowerChar) = true
    rw [headOkWs_map pyLowerChar isWsCh_pyLowerChar]
    exact headOkWs_pyStrip s
  have h0l : lastOkWs (pyLower (pyStrip s)) = true := by
    show lastOkWs ((pyStrip s).map pyLowerChar) = true
    rw [lastOkWs_map pyLowerChar isWsCh_pyLowerChar]
    exact lastOkWs_pyStrip s
  have h0f : ∀ c ∈ pyLower (pyStrip s), pyLowerChar c = c := by
    intro c hc
    obtain ⟨d, _, hdc⟩ := List.mem_map.mp hc
    rw [← hdc]
    exact pyLowerChar_idem d
  have ht1 : replaceAll [nbspCh] [' '] (pyLower (pyStrip s)) =
      (pyLower (pyStrip s)).map (fun c => if c = nbspCh then ' ' else c) :=
    replaceAll_single nbspCh ' ' _
  have h1h : headOkWs (replaceAll [nbspCh] [' '] (pyLower (pyStrip s))) = true := by
    rw [ht1, headOkWs_map _ hsub]
    exact h0h
  have h1l : lastOkWs (replaceAll [nbspCh] [' '] (pyLower (pyStrip s))) = true := by
    rw [ht1, lastOkWs_map _ hsub]
    exact h0l
  have h1f : ∀ c ∈ replaceAll [nbspCh] [' '] (pyLower (pyStrip s)), pyLowerChar c = c := by
    rw [ht1]
    intro c hc
    obtain ⟨d, hd, hdc⟩ := List.mem_map.mp hc
    by_cases hdn : d = nbspCh
    · rw [← hdc, if_pos hdn]
      decide
    · rw [← hdc, if_neg hdn]
      exact h0f d hd
  have h2h : headOkWs (wsCollapse (replaceAll [nbspCh] [' '] (pyLower (pyStrip s)))) = true :=
    headOkWs_wsCollapse _ h1h
  have h2l : lastOkWs (wsCollapse (replaceAll [nbspCh] [' '] (pyLower (pyStrip s)))) = true := by
    show lastOkWs (wsCollapseGo false _) = true
    rw [lastOkWs_congr _ _ (getLast?_wsCollapseGo _ false h1l)]
    exact h1l
  have h2s : wsOnlySpace (wsCollapse (replaceAll [nbspCh] [' '] (pyLower (pyStrip s)))) = true :=
    wsOnlySpace_wsCollapseGo _ false
  have h2a : noAdjWs (wsCollapse (replaceAll [nbspCh] [' '] (pyLower (pyStrip s)))) = true :=
    noAdjWs_wsCollapseGo _ false
  have h2f : ∀ c ∈ wsCollapse (replaceAll [nbspCh] [' '] (pyLower (pyStrip s))),
      pyLowerChar c = c := by
    intro c hc
    rcases mem_wsCollapseGo c _ false hc with h | h
    · rw [h]; decide
    · exact h1f c h
  have hB1ne : S r"los angeles clippers" ≠ [] := by decide
  have hB1h : headOkWs (S r"los angeles clippers") = true := by decide
  have hB1l : lastOkWs (S r"los angeles clippers") = true := by decide
  have hB1a : noAdjWs (S r"los angeles clippers") = true := by decide
  have h3h : headOkWs (replaceAll (S r"la clippers") (S r"los angeles clippers")
      (wsCollapse (replaceAll [nbspCh] [' '] (pyLower (pyStrip s))))) = true :=
    headOkWs_replaceAll _ _ _ hB1ne hB1h h2h
  have h3l : lastOkWs (replaceAll (S r"la clippers") (S r"los angeles clippers")
      (wsCollapse (replaceAll [nbspCh] [' '] (pyLower (pyStrip s))))) = true :=
    lastOkWs_replaceAll _ _ hB1ne hB1l _ _ le_rfl h2l
  have h3a : noAdjWs (replaceAll (S r"la clippers") (S r"los angeles clippers")
      (wsCollapse (replaceAll [nbspCh] [' '] (pyLower (pyStrip s))))) = true :=
    noAdjWs_replaceAll _ _ hB1ne hB1h hB1l hB1a _ _ le_rfl h2a
  have h3s : wsOnlySpace (replaceAll (S r"la clippers") (S r"los angeles clippers")
      (wsCollapse (replaceAll [nbspCh] [' '] (pyLower (pyStrip s))))) = true := by
    refine wsOnlySpace_mem _ ?_
    intro c hc hw
    rcases mem_replaceAll _ _ _ c hc with h | h
    · exact wsOnlySpace_mem_rev _ (by decide) c h hw
    · exact wsOnlySpace_mem_rev _ h2s c h hw
  have h3f : ∀ c ∈ replaceAll (S r"la clippers") (S r"los angeles clippers")
      (wsCollapse (replaceAll [nbspCh] [' '] (pyLower (pyStrip s)))), pyLowerChar c = c := by
    intro c hc
    rcases mem_replaceAll _ _ _ c hc with h | h
    · have hball : ∀ d ∈ S r"los angeles clippers", pyLowerChar d = d := by decide
      exact hball c h
    · exact h2f c h
  have h3no1 : ¬ occursIn (S r"la clippers")
      (replaceAll (S r"la clippers") (S r"los angeles clippers")
        (wsCollapse (replaceAll [nbspCh] [' '] (pyLower (pyStrip s))))) :=
    (replaceAll_avoid (S r"la clippers") (S r"la clippers") (S r"los angeles clippers")
      (by decide) (not_occurs_of_hasInfx_false _ _ (by decide)) (by decide)
      (by decide) (by decide) _ _ le_rfl (Or.inl rfl)).1
  have hB2ne : S r"los angeles lakers" ≠ [] := by decide
  have hB2h : headOkWs (S r"los angeles lakers") = true := by decide
  have hB2l : lastOkWs (S r"los angeles lakers") = true := by decide
  have hB2a : noAdjWs (S r"los angeles lakers") = true := by decide
  refine ⟨?_, ?_, ?_, ?_, ?_, ?_, ?_⟩
  · exact headOkWs_replaceAll _ _ _ hB2ne hB2h h3h
  · exact lastOkWs_replaceAll _ _ hB2ne hB2l _ _ le_rfl h3l
  · refine wsOnlySpace_mem _ ?_
    intro c hc hw
    rcases mem_replaceAll _ _ _ c hc with h | h
    · exact wsOnlySpace_mem_rev _ (by decide) c h hw
    · exact wsOnlySpace_mem_rev _ h3s c h hw
  · exact noAdjWs_replaceAll _ _ hB2ne hB2h hB2l hB2a _ _ le_rfl h3a
  · intro c hc
    rcases mem_replaceAll _ _ _ c hc with h | h
    · have hball : ∀ d ∈ S r"los angeles lakers", pyLowerChar d = d := by decide
      exact hball c h
    · exact h3f c h
  · exact (replaceAll_avoid (S r"la clippers") (S r"la lakers") (S r"los angeles lakers")
      (by decide) (not_occurs_of_hasInfx_false _ _ (by decide)) (by decide)
      (by decide) (by decide) _ _ le_rfl (Or.inr h3no1)).1
  · exact (replaceAll_avoid (S r"la lakers") (S r"la lakers") (S r"los angeles lakers")
      (by decide) (not_occurs_of_hasInfx_false _ _ (by decide)) (by decide)
      (by decide) (by decide) _ _ le_rfl (Or.inl rfl)).1

theorem normalize_team_name_idem (s : PyStr) :
    normalize_team_name (normalize_team_name s) = normalize_team_name s := by
  obtain ⟨hh, hl, hws, ha, hf, hn1, hn2⟩ := normalize_invariants s
  have h1 : pyStrip (normalize_team_name s) = normalize_team_name s :=
    pyStrip_id _ hh hl
  have h2 : pyLower (normalize_team_name s) = normalize_team_name s :=
    map_eq_self_of pyLowerChar _ hf
  have h3 : replaceAll [nbspCh] [' '] (normalize_team_name s) = normalize_team_name s := by
    refine replaceAll_of_not_occurs _ _ _ ?_
    intro hocc
    rw [occurs_single_iff] at hocc
    have := wsOnlySpace_mem_rev _ hws nbspCh hocc (by decide)
    exact absurd this (by decide)
  have h4 : wsCollapse (normalize_team_name s) = normalize_team_name s :=
    wsCollapse_id _ hws ha
  have h5 : replaceAll (S r"la clippers") (S r"los angeles clippers")
      (normalize_team_name s) = normalize_team_name s :=
    replaceAll_of_not_occurs _ _ _ hn1
  have h6 : replaceAll (S r"la lakers") (S r"los angeles lakers")
      (normalize_team_name s) = normalize_team_name s :=
    replaceAll_of_not_occurs _ _ _ hn2
  show replaceAll (S r"la lakers") (S r"los angeles lakers")
      (replaceAll (S r"la clippers") (S r"los angeles clippers")
        (wsCollapse (replaceAll [nbspCh] [' ']
          (pyLower (pyStrip (normalize_team_name s)))))) = normalize_team_name s
  rw [h1, h2, h3, h4, h5, h6]

/-- **C8**: team-name normalization is idempotent — `normalize_team_name`
applied twice equals a single application on every input — and the
case/whitespace-insensitive alias expansion identifies `"  LA Clippers "`
with `"los angeles clippers"`. -/
theorem C8_normalize_idempotent :
    (∀ s : PyStr, normalize_team_name (normalize_team_name s) = normalize_team_name s) ∧
    normalize_team_name (S r"  LA Clippers ") =
      normalize_team_name (S r"los angeles clippers") :=
  ⟨normalize_team_name_idem, by decide⟩
